import Mathlib

/-!
# Verification of the wp-theme-cli scaffolding scripts

Shallow embedding of the `wp-theme-cli` repository: three near-identical
Node entry points (`bin/cli.js` and two unnamed variants) that prompt for
theme metadata, clone a template repository, promote "sample" manifests,
run token-substitution passes and install dependencies.

Strings are modelled as `List Char`.  JS regexes `[A-Z]`, `[_-]`, `\s`,
`\w` are modelled by the corresponding character classes; `toLowerCase`
and `toUpperCase` are modelled on the ASCII range, which is the range the
scripts' regular expressions single out.  External collaborators
(`child_process.execSync`, the `replace-in-file` library, the prompt
library) are modelled as oracles supplied by an environment record, while
`fs/promises` operations are given their documented semantics over an
explicit file-system map.
-/

namespace WpThemeCli

abbrev Str := List Char

/-- Character class of the JS regex `\s` (and of `String.prototype.trim`):
ECMA-262 WhiteSpace together with LineTerminator. -/
def isJsWs (c : Char) : Bool :=
  let t := c.toNat
  t == 9 || t == 10 || t == 11 || t == 12 || t == 13 || t == 32 ||
  t == 160 || t == 5760 || (8192 ≤ t && t ≤ 8202) || t == 8232 ||
  t == 8233 || t == 8239 || t == 8287 || t == 12288 || t == 65279

/-- Character class of the JS regex `[A-Z]`. -/
def isUpperAZ (c : Char) : Bool := 65 ≤ c.toNat && c.toNat ≤ 90

/-- ASCII `a`-`z`. -/
def isLowerAZ (c : Char) : Bool := 97 ≤ c.toNat && c.toNat ≤ 122

/-- ASCII `0`-`9`. -/
def isDigitChar (c : Char) : Bool := 48 ≤ c.toNat && c.toNat ≤ 57

/-- Character class of the JS regex `[_-]`. -/
def isDashU (c : Char) : Bool := c.toNat == 95 || c.toNat == 45

/-- Character class of the JS regex `\w`. -/
def isWordChar (c : Char) : Bool :=
  isUpperAZ c || isLowerAZ c || isDigitChar c || c.toNat == 95

/-- `String.prototype.toLowerCase`, on the ASCII range. -/
def toLowerChar (c : Char) : Char :=
  if isUpperAZ c then Char.ofNat (c.toNat + 32) else c

/-- `String.prototype.toUpperCase`, on the ASCII range. -/
def toUpperChar (c : Char) : Char :=
  if isLowerAZ c then Char.ofNat (c.toNat - 32) else c

/-- `str.replace(/([A-Z]+)/g, " $1")`: one space is inserted before each
maximal run of `A`-`Z`.  The flag records whether the previous character
belonged to such a run. -/
def spaceUpper : Bool → Str → Str
  | _, [] => []
  | inRun, c :: cs =>
    if isUpperAZ c then
      if inRun then c :: spaceUpper true cs
      else ' ' :: c :: spaceUpper true cs
    else c :: spaceUpper false cs

/-- `str.replace(/p+/g, r)` for a character class `p` and a one-character
replacement `r`: each maximal run of `p`-characters becomes the single
character `r`.  The flag records whether the previous character belonged
to a run. -/
def replaceRuns (p : Char → Bool) (r : Char) : Bool → Str → Str
  | _, [] => []
  | inRun, c :: cs =>
    if p c then
      if inRun then replaceRuns p r true cs
      else r :: replaceRuns p r true cs
    else c :: replaceRuns p r false cs

/-- The right half of `String.prototype.trim`: drop the maximal trailing
run of JS whitespace. -/
def trimEndL : Str → Str
  | [] => []
  | c :: cs =>
    match trimEndL cs with
    | [] => if isJsWs c then [] else [c]
    | r => c :: r

/-- `String.prototype.trim`. -/
def jsTrimL (l : Str) : Str := trimEndL (l.dropWhile isJsWs)

/-- `String.prototype.toLowerCase` (ASCII range). -/
def toLowerL (l : Str) : Str := l.map toLowerChar

/-- `stripCase` from the source, over character lists: insert a space
before each uppercase run, turn `[_-]` runs into spaces, collapse
whitespace runs, trim, lowercase. -/
def stripCaseL (l : Str) : Str :=
  toLowerL (jsTrimL (replaceRuns isJsWs ' ' false
    (replaceRuns isDashU ' ' false (spaceUpper false l))))

/-- `str.replace(/\b\w/g, m => m.toUpperCase())`: a word character is
uppercased exactly when the previous character is not a word character.
The flag records whether the previous character was a word character. -/
def upperWordsL : Bool → Str → Str
  | _, [] => []
  | prevW, c :: cs =>
    (if isWordChar c && !prevW then toUpperChar c else c) ::
      upperWordsL (isWordChar c) cs

/-- `stripCase` from the source. -/
def stripCase (s : String) : String := ⟨stripCaseL s.data⟩

/-- `upperCaseWords` from the source. -/
def upperCaseWords (s : String) : String := ⟨upperWordsL false s.data⟩

/-- `titleCase` from the source. -/
def titleCase (s : String) : String := upperCaseWords (stripCase s)

/-- `snakeCase` from the source: `stripCase(str).replace(/\s+/g, "_")`. -/
def snakeCase (s : String) : String :=
  ⟨replaceRuns isJsWs '_' false (stripCase s).data⟩

/-- `titleSnakeCase` from the source: `titleCase(str).replace(/\s+/g, "_")`. -/
def titleSnakeCase (s : String) : String :=
  ⟨replaceRuns isJsWs '_' false (titleCase s).data⟩

/-- `kebabCase` from the source: `stripCase(str).replace(/\s+/g, "-")`. -/
def kebabCase (s : String) : String :=
  ⟨replaceRuns isJsWs '-' false (stripCase s).data⟩

-- Sanity checks against the documented examples in the source and spec.
example : titleCase "this is my sample" = "This Is My Sample" := by decide
example : snakeCase "This is my sample" = "this_is_my_sample" := by decide
example : titleSnakeCase "This is my sample" = "This_Is_My_Sample" := by decide
example : kebabCase "This is my sample" = "this-is-my-sample" := by decide
example : stripCase "Some_mixed-CASEString" = "some mixed casestring" := by decide
example : titleCase (titleCase "a.b") = "A. B" := by decide

/-! ## Character-level facts -/

theorem toNat_ofNat_small {n : Nat} (h : n < 55296) : (Char.ofNat n).toNat = n := by
  have hv : n.isValidChar := Or.inl h
  rw [Char.ofNat, dif_pos hv]
  rfl

theorem isUpperAZ_iff {c : Char} : isUpperAZ c = true ↔ 65 ≤ c.toNat ∧ c.toNat ≤ 90 := by
  simp [isUpperAZ]

theorem isLowerAZ_iff {c : Char} : isLowerAZ c = true ↔ 97 ≤ c.toNat ∧ c.toNat ≤ 122 := by
  simp [isLowerAZ]

theorem isDashU_iff {c : Char} : isDashU c = true ↔ c.toNat = 95 ∨ c.toNat = 45 := by
  simp [isDashU]

theorem isJsWs_iff {c : Char} : isJsWs c = true ↔
    c.toNat = 9 ∨ c.toNat = 10 ∨ c.toNat = 11 ∨ c.toNat = 12 ∨ c.toNat = 13 ∨
    c.toNat = 32 ∨ c.toNat = 160 ∨ c.toNat = 5760 ∨
    (8192 ≤ c.toNat ∧ c.toNat ≤ 8202) ∨ c.toNat = 8232 ∨ c.toNat = 8233 ∨
    c.toNat = 8239 ∨ c.toNat = 8287 ∨ c.toNat = 12288 ∨ c.toNat = 65279 := by
  simp [isJsWs]
  tauto

theorem toNat_toLowerChar (c : Char) :
    (toLowerChar c).toNat = if isUpperAZ c then c.toNat + 32 else c.toNat := by
  unfold toLowerChar
  by_cases h : isUpperAZ c
  · rw [if_pos h, if_pos h]
    exact toNat_ofNat_small (by have := isUpperAZ_iff.mp h; omega)
  · rw [if_neg h, if_neg h]

theorem toNat_toUpperChar (c : Char) :
    (toUpperChar c).toNat = if isLowerAZ c then c.toNat - 32 else c.toNat := by
  unfold toUpperChar
  by_cases h : isLowerAZ c
  · rw [if_pos h, if_pos h]
    exact toNat_ofNat_small (by have := isLowerAZ_iff.mp h; omega)
  · rw [if_neg h, if_neg h]

theorem char_eq_of_toNat_eq {c d : Char} (h : c.toNat = d.toNat) : c = d :=
  Char.eq_of_val_eq (UInt32.ext h)

theorem isUpperAZ_toLowerChar (c : Char) : isUpperAZ (toLowerChar c) = false := by
  rw [Bool.eq_false_iff]
  intro h
  have h1 := isUpperAZ_iff.mp h
  rw [toNat_toLowerChar] at h1
  by_cases h2 : isUpperAZ c
  · rw [if_pos h2] at h1
    have := isUpperAZ_iff.mp h2
    omega
  · rw [if_neg h2] at h1
    exact h2 (isUpperAZ_iff.mpr h1)

theorem toLowerChar_eq_self {c : Char} (h : isUpperAZ c = false) : toLowerChar c = c := by
  unfold toLowerChar
  rw [h]
  rfl

theorem toUpperChar_eq_self {c : Char} (h : isLowerAZ c = false) : toUpperChar c = c := by
  unfold toUpperChar
  rw [h]
  rfl

theorem isJsWs_toLowerChar (c : Char) : isJsWs (toLowerChar c) = isJsWs c := by
  by_cases h : isUpperAZ c
  · have hu := isUpperAZ_iff.mp h
    have hl : (toLowerChar c).toNat = c.toNat + 32 := by rw [toNat_toLowerChar, if_pos h]
    have e1 : isJsWs (toLowerChar c) = false := by
      rw [Bool.eq_false_iff]
      intro hw
      have := isJsWs_iff.mp hw
      omega
    have e2 : isJsWs c = false := by
      rw [Bool.eq_false_iff]
      intro hw
      have := isJsWs_iff.mp hw
      omega
    rw [e1, e2]
  · rw [toLowerChar_eq_self (Bool.eq_false_iff.mpr h)]

theorem isJsWs_toUpperChar (c : Char) : isJsWs (toUpperChar c) = isJsWs c := by
  by_cases h : isLowerAZ c
  · have hu := isLowerAZ_iff.mp h
    have hl : (toUpperChar c).toNat = c.toNat - 32 := by rw [toNat_toUpperChar, if_pos h]
    have e1 : isJsWs (toUpperChar c) = false := by
      rw [Bool.eq_false_iff]
      intro hw
      have := isJsWs_iff.mp hw
      omega
    have e2 : isJsWs c = false := by
      rw [Bool.eq_false_iff]
      intro hw
      have := isJsWs_iff.mp hw
      omega
    rw [e1, e2]
  · rw [toUpperChar_eq_self (Bool.eq_false_iff.mpr h)]

theorem isDashU_toLowerChar (c : Char) : isDashU (toLowerChar c) = isDashU c := by
  by_cases h : isUpperAZ c
  · have hu := isUpperAZ_iff.mp h
    have hl : (toLowerChar c).toNat = c.toNat + 32 := by rw [toNat_toLowerChar, if_pos h]
    have e1 : isDashU (toLowerChar c) = false := by
      rw [Bool.eq_false_iff]
      intro hw
      have := isDashU_iff.mp hw
      omega
    have e2 : isDashU c = false := by
      rw [Bool.eq_false_iff]
      intro hw
      have := isDashU_iff.mp hw
      omega
    rw [e1, e2]
  · rw [toLowerChar_eq_self (Bool.eq_false_iff.mpr h)]

theorem toLowerChar_toUpperChar {c : Char} (h : isUpperAZ c = false) :
    toLowerChar (toUpperChar c) = c := by
  by_cases hl : isLowerAZ c
  · have h1 := isLowerAZ_iff.mp hl
    have h2 : (toUpperChar c).toNat = c.toNat - 32 := by rw [toNat_toUpperChar, if_pos hl]
    have h3 : isUpperAZ (toUpperChar c) = true := by
      rw [isUpperAZ_iff, h2]
      omega
    apply char_eq_of_toNat_eq
    rw [toNat_toLowerChar, if_pos h3, h2]
    omega
  · rw [toUpperChar_eq_self (Bool.eq_false_iff.mpr hl)]
    exact toLowerChar_eq_self h

theorem isUpperAZ_toUpperChar (c : Char) :
    isUpperAZ (toUpperChar c) = (isUpperAZ c || isLowerAZ c) := by
  by_cases hl : isLowerAZ c
  · have h1 := isLowerAZ_iff.mp hl
    have h2 : (toUpperChar c).toNat = c.toNat - 32 := by rw [toNat_toUpperChar, if_pos hl]
    have h3 : isUpperAZ (toUpperChar c) = true := by
      rw [isUpperAZ_iff, h2]
      omega
    rw [h3, hl, Bool.or_true]
  · rw [toUpperChar_eq_self (Bool.eq_false_iff.mpr hl), Bool.eq_false_iff.mpr hl,
      Bool.or_false]

/-! ## Structural string predicates -/

/-- No character of `l` satisfies `p`. -/
def noneSat (p : Char → Bool) (l : Str) : Bool := l.all (fun c => !p c)

/-- No two adjacent characters of `l` both satisfy `p`. -/
def noTwoAdj (p : Char → Bool) : Str → Bool
  | [] => true
  | [_] => true
  | a :: b :: cs => (!(p a && p b)) && noTwoAdj p (b :: cs)

/-- The first character of `l`, if any, does not satisfy `p`. -/
def headNot (p : Char → Bool) : Str → Bool
  | [] => true
  | c :: _ => !p c

/-- The last character of `l`, if any, does not satisfy `p`. -/
def lastNot (p : Char → Bool) : Str → Bool
  | [] => true
  | [c] => !p c
  | _ :: c :: cs => lastNot p (c :: cs)

theorem noTwoAdj_tail {p : Char → Bool} {a : Char} {l : Str}
    (h : noTwoAdj p (a :: l) = true) : noTwoAdj p l = true := by
  cases l with
  | nil => rfl
  | cons b cs =>
    unfold noTwoAdj at h
    exact (Bool.and_eq_true_iff.mp h).2

theorem noTwoAdj_cons {p : Char → Bool} {a : Char} {l : Str}
    (h1 : p a = false ∨ headNot p l = true) (h2 : noTwoAdj p l = true) :
    noTwoAdj p (a :: l) = true := by
  cases l with
  | nil => rfl
  | cons b cs =>
    unfold noTwoAdj
    rw [Bool.and_eq_true_iff]
    refine ⟨?_, h2⟩
    rcases h1 with h1 | h1
    · rw [h1]
      rfl
    · unfold headNot at h1
      rw [Bool.not_eq_true'] at h1
      rw [h1, Bool.and_false]
      rfl

theorem noneSat_iff {p : Char → Bool} {l : Str} :
    noneSat p l = true ↔ ∀ c ∈ l, p c = false := by
  unfold noneSat
  rw [List.all_eq_true]
  constructor
  · intro h c hc
    have := h c hc
    rwa [Bool.not_eq_true'] at this
  · intro h c hc
    rw [Bool.not_eq_true', h c hc]

/-! ## Membership through the pipeline stages -/

theorem mem_replaceRuns {p : Char → Bool} {r : Char} :
    ∀ {b : Bool} {l : Str} {c : Char}, c ∈ replaceRuns p r b l →
      c = r ∨ (c ∈ l ∧ p c = false) := by
  intro b l
  induction l generalizing b with
  | nil => intro c h; cases h
  | cons a cs ih =>
    intro c h
    unfold replaceRuns at h
    by_cases ha : p a
    · rw [if_pos ha] at h
      by_cases hb : b
      · rw [if_pos hb] at h
        rcases ih h with h | ⟨h1, h2⟩
        · exact Or.inl h
        · exact Or.inr ⟨List.mem_cons_of_mem a h1, h2⟩
      · rw [if_neg hb] at h
        rcases List.mem_cons.mp h with h | h
        · exact Or.inl h
        · rcases ih h with h | ⟨h1, h2⟩
          · exact Or.inl h
          · exact Or.inr ⟨List.mem_cons_of_mem a h1, h2⟩
    · rw [if_neg ha] at h
      rcases List.mem_cons.mp h with h | h
      · subst h
        exact Or.inr ⟨List.mem_cons_self _ _, Bool.eq_false_iff.mpr ha⟩
      · rcases ih h with h | ⟨h1, h2⟩
        · exact Or.inl h
        · exact Or.inr ⟨List.mem_cons_of_mem a h1, h2⟩

theorem mem_spaceUpper :
    ∀ {b : Bool} {l : Str} {c : Char}, c ∈ spaceUpper b l → c = ' ' ∨ c ∈ l := by
  intro b l
  induction l generalizing b with
  | nil => intro c h; cases h
  | cons a cs ih =>
    intro c h
    unfold spaceUpper at h
    by_cases ha : isUpperAZ a
    · rw [if_pos ha] at h
      by_cases hb : b
      · rw [if_pos hb] at h
        rcases List.mem_cons.mp h with h | h
        · exact Or.inr (h ▸ List.mem_cons_self _ _)
        · rcases ih h with h | h
          · exact Or.inl h
          · exact Or.inr (List.mem_cons_of_mem a h)
      · rw [if_neg hb] at h
        rcases List.mem_cons.mp h with h | h
        · exact Or.inl h
        · rcases List.mem_cons.mp h with h | h
          · exact Or.inr (h ▸ List.mem_cons_self _ _)
          · rcases ih h with h | h
            · exact Or.inl h
            · exact Or.inr (List.mem_cons_of_mem a h)
    · rw [if_neg ha] at h
      rcases List.mem_cons.mp h with h | h
      · exact Or.inr (h ▸ List.mem_cons_self _ _)
      · rcases ih h with h | h
        · exact Or.inl h
        · exact Or.inr (List.mem_cons_of_mem a h)

theorem mem_dropWhile {p : Char → Bool} :
    ∀ {l : Str} {c : Char}, c ∈ l.dropWhile p → c ∈ l := by
  intro l
  induction l with
  | nil => intro c h; cases h
  | cons a cs ih =>
    intro c h
    rw [List.dropWhile_cons] at h
    by_cases ha : p a
    · rw [if_pos ha] at h
      exact List.mem_cons_of_mem a (ih h)
    · rw [if_neg ha] at h
      exact h

theorem mem_trimEnd :
    ∀ {l : Str} {c : Char}, c ∈ trimEndL l → c ∈ l := by
  intro l
  induction l with
  | nil => intro c h; cases h
  | cons a cs ih =>
    intro c h
    unfold trimEndL at h
    rcases he : trimEndL cs with _ | ⟨d, ds⟩
    · rw [he] at h
      by_cases ha : isJsWs a
      · rw [if_pos ha] at h
        cases h
      · rw [if_neg ha] at h
        rcases List.mem_cons.mp h with h | h
        · exact h ▸ List.mem_cons_self _ _
        · cases h
    · rw [he] at h
      rcases List.mem_cons.mp h with h | h
      · exact h ▸ List.mem_cons_self _ _
      · exact List.mem_cons_of_mem a (ih (he ▸ h))

/-! ## Equation helpers -/

theorem replaceRuns_cons (p : Char → Bool) (r : Char) (b : Bool) (a : Char) (cs : Str) :
    replaceRuns p r b (a :: cs) =
      if p a then
        (if b then replaceRuns p r true cs else r :: replaceRuns p r true cs)
      else a :: replaceRuns p r false cs := by
  cases b <;> rfl

theorem spaceUpper_cons (b : Bool) (a : Char) (cs : Str) :
    spaceUpper b (a :: cs) =
      if isUpperAZ a then
        (if b then a :: spaceUpper true cs else ' ' :: a :: spaceUpper true cs)
      else a :: spaceUpper false cs := by
  cases b <;> rfl

theorem headNot_cons (p : Char → Bool) (a : Char) (l : Str) :
    headNot p (a :: l) = !p a := rfl

theorem lastNot_single (p : Char → Bool) (c : Char) : lastNot p [c] = !p c := rfl

theorem noTwoAdj_pair (p : Char → Bool) (a b : Char) (l : Str) :
    noTwoAdj p (a :: b :: l) = (!(p a && p b) && noTwoAdj p (b :: l)) := rfl

theorem trimEndL_cons_of_nil {cs : Str} (a : Char) (h : trimEndL cs = []) :
    trimEndL (a :: cs) = if isJsWs a then [] else [a] := by
  simp only [trimEndL, h]

theorem trimEndL_cons_of_cons {cs : Str} (a : Char) {d : Char} {ds : Str}
    (h : trimEndL cs = d :: ds) :
    trimEndL (a :: cs) = a :: d :: ds := by
  simp only [trimEndL, h]

theorem upperWordsL_cons (b : Bool) (a : Char) (cs : Str) :
    upperWordsL b (a :: cs) =
      (if isWordChar a && !b then toUpperChar a else a) ::
        upperWordsL (isWordChar a) cs := rfl

/-! ## Shape of the whitespace-collapsing stage -/

theorem collapse_shape (l : Str) :
    (noTwoAdj isJsWs (replaceRuns isJsWs ' ' false l) = true) ∧
    (headNot isJsWs (replaceRuns isJsWs ' ' true l) = true ∧
      noTwoAdj isJsWs (replaceRuns isJsWs ' ' true l) = true) := by
  induction l with
  | nil => exact ⟨rfl, rfl, rfl⟩
  | cons a cs ih =>
    obtain ⟨ihF, ihH, ihT⟩ := ih
    by_cases ha : isJsWs a = true
    · have eF : replaceRuns isJsWs ' ' false (a :: cs) =
          ' ' :: replaceRuns isJsWs ' ' true cs := by
        rw [replaceRuns_cons, if_pos ha, if_neg (by decide : ¬((false : Bool) = true))]
      have eT : replaceRuns isJsWs ' ' true (a :: cs) =
          replaceRuns isJsWs ' ' true cs := by
        rw [replaceRuns_cons, if_pos ha, if_pos (rfl : (true : Bool) = true)]
      refine ⟨?_, ?_, ?_⟩
      · rw [eF]
        exact noTwoAdj_cons (Or.inr ihH) ihT
      · rw [eT]
        exact ihH
      · rw [eT]
        exact ihT
    · have eF : replaceRuns isJsWs ' ' false (a :: cs) =
          a :: replaceRuns isJsWs ' ' false cs := by
        rw [replaceRuns_cons, if_neg ha]
      have eT : replaceRuns isJsWs ' ' true (a :: cs) =
          a :: replaceRuns isJsWs ' ' false cs := by
        rw [replaceRuns_cons, if_neg ha]
      have hcons : noTwoAdj isJsWs (a :: replaceRuns isJsWs ' ' false cs) = true :=
        noTwoAdj_cons (Or.inl (Bool.eq_false_iff.mpr ha)) ihF
      refine ⟨?_, ?_, ?_⟩
      · rw [eF]
        exact hcons
      · rw [eT, headNot_cons, Bool.eq_false_iff.mpr ha]
        rfl
      · rw [eT]
        exact hcons

/-! ## Trimming preserves the shape -/

theorem headNot_dropWhile (p : Char → Bool) (l : Str) :
    headNot p (l.dropWhile p) = true := by
  induction l with
  | nil => rfl
  | cons a cs ih =>
    rw [List.dropWhile_cons]
    by_cases ha : p a = true
    · rw [if_pos ha]
      exact ih
    · rw [if_neg ha, headNot_cons, Bool.eq_false_iff.mpr ha]
      rfl

theorem noTwoAdj_dropWhile {p : Char → Bool} {l : Str}
    (h : noTwoAdj p l = true) : noTwoAdj p (l.dropWhile p) = true := by
  induction l with
  | nil => rfl
  | cons a cs ih =>
    rw [List.dropWhile_cons]
    by_cases ha : p a = true
    · rw [if_pos ha]
      exact ih (noTwoAdj_tail h)
    · rw [if_neg ha]
      exact h

theorem lastNot_cons_of_ne_nil {p : Char → Bool} {a : Char} {l : Str}
    (h : l ≠ []) : lastNot p (a :: l) = lastNot p l := by
  cases l with
  | nil => exact absurd rfl h
  | cons b cs => rfl

theorem lastNot_dropWhile {p : Char → Bool} {l : Str}
    (h : lastNot p l = true) : lastNot p (l.dropWhile p) = true := by
  induction l with
  | nil => rfl
  | cons a cs ih =>
    rw [List.dropWhile_cons]
    by_cases ha : p a = true
    · rw [if_pos ha]
      apply ih
      cases cs with
      | nil =>
        rw [lastNot_single, ha] at h
        cases h
      | cons b bs =>
        rwa [lastNot_cons_of_ne_nil (by simp)] at h
    · rw [if_neg ha]
      exact h

theorem lastNot_trimEnd (l : Str) : lastNot isJsWs (trimEndL l) = true := by
  induction l with
  | nil => rfl
  | cons a cs ih =>
    rcases he : trimEndL cs with _ | ⟨d, ds⟩
    · rw [trimEndL_cons_of_nil a he]
      by_cases ha : isJsWs a = true
      · rw [if_pos ha]
        rfl
      · rw [if_neg ha, lastNot_single, Bool.eq_false_iff.mpr ha]
        rfl
    · rw [trimEndL_cons_of_cons a he]
      rw [lastNot_cons_of_ne_nil (by simp)]
      rw [he] at ih
      exact ih

theorem head_trimEnd : ∀ {l : Str} {d : Char} {r : Str},
    trimEndL l = d :: r → ∃ t, l = d :: t := by
  intro l d r h
  cases l with
  | nil => cases h
  | cons a cs =>
    rcases he : trimEndL cs with _ | ⟨e, es⟩
    · rw [trimEndL_cons_of_nil a he] at h
      by_cases ha : isJsWs a = true
      · rw [if_pos ha] at h
        cases h
      · rw [if_neg ha] at h
        exact ⟨cs, by rw [(List.cons.injEq _ _ _ _).mp h |>.1]⟩
    · rw [trimEndL_cons_of_cons a he] at h
      exact ⟨cs, by rw [(List.cons.injEq _ _ _ _).mp h |>.1]⟩

theorem headNot_trimEnd {p : Char → Bool} {l : Str}
    (h : headNot p l = true) : headNot p (trimEndL l) = true := by
  rcases he : trimEndL l with _ | ⟨d, ds⟩
  · rfl
  · obtain ⟨t, ht⟩ := head_trimEnd he
    subst ht
    exact h

theorem noTwoAdj_trimEnd {l : Str}
    (h : noTwoAdj isJsWs l = true) : noTwoAdj isJsWs (trimEndL l) = true := by
  induction l with
  | nil => rfl
  | cons a cs ih =>
    rcases he : trimEndL cs with _ | ⟨d, ds⟩
    · rw [trimEndL_cons_of_nil a he]
      by_cases ha : isJsWs a = true
      · rw [if_pos ha]
        rfl
      · rw [if_neg ha]
        rfl
    · rw [trimEndL_cons_of_cons a he]
      have htail : noTwoAdj isJsWs (d :: ds) = true := by
        rw [← he]
        exact ih (noTwoAdj_tail h)
      apply noTwoAdj_cons _ htail
      obtain ⟨t, ht⟩ := head_trimEnd he
      subst ht
      rcases Bool.eq_false_or_eq_true (isJsWs a) with ha | ha
      · right
        rw [noTwoAdj_pair] at h
        have h1 := (Bool.and_eq_true_iff.mp h).1
        rw [ha, Bool.true_and, Bool.not_eq_true'] at h1
        rw [headNot_cons, h1]
        rfl
      · exact Or.inl ha

/-! ## Lowercasing preserves the shape -/

theorem headNot_toLowerL {l : Str}
    (h : headNot isJsWs l = true) : headNot isJsWs (toLowerL l) = true := by
  cases l with
  | nil => rfl
  | cons a cs =>
    unfold toLowerL
    rw [List.map_cons, headNot_cons, isJsWs_toLowerChar]
    rw [headNot_cons] at h
    exact h

theorem lastNot_toLowerL {l : Str}
    (h : lastNot isJsWs l = true) : lastNot isJsWs (toLowerL l) = true := by
  induction l with
  | nil => rfl
  | cons a cs ih =>
    cases cs with
    | nil =>
      unfold toLowerL
      rw [List.map_cons, List.map_nil, lastNot_single, isJsWs_toLowerChar]
      rw [lastNot_single] at h
      exact h
    | cons b bs =>
      rw [lastNot_cons_of_ne_nil (by simp)] at h
      unfold toLowerL at *
      rw [List.map_cons]
      rw [lastNot_cons_of_ne_nil (by simp)]
      exact ih h

theorem noTwoAdj_toLowerL {l : Str}
    (h : noTwoAdj isJsWs l = true) : noTwoAdj isJsWs (toLowerL l) = true := by
  induction l with
  | nil => rfl
  | cons a cs ih =>
    cases cs with
    | nil => rfl
    | cons b bs =>
      rw [noTwoAdj_pair] at h
      have h1 := (Bool.and_eq_true_iff.mp h).1
      have h2 := (Bool.and_eq_true_iff.mp h).2
      unfold toLowerL at *
      rw [List.map_cons]
      apply noTwoAdj_cons _ (ih h2)
      rw [List.map_cons, headNot_cons]
      rcases Bool.eq_false_or_eq_true (isJsWs a) with ha | ha
      · right
        rw [ha, Bool.true_and, Bool.not_eq_true'] at h1
        rw [isJsWs_toLowerChar, h1]
        rfl
      · left
        rw [isJsWs_toLowerChar]
        exact ha

/-! ## The normal form of `stripCase` output -/

theorem stripCase_normal (l : Str) :
    noneSat isUpperAZ (stripCaseL l) = true ∧
    noneSat isDashU (stripCaseL l) = true ∧
    (∀ c ∈ stripCaseL l, isJsWs c = true → c = ' ') ∧
    headNot isJsWs (stripCaseL l) = true ∧
    lastNot isJsWs (stripCaseL l) = true ∧
    noTwoAdj isJsWs (stripCaseL l) = true := by
  unfold stripCaseL
  set l1 := spaceUpper false l with hl1
  set l2 := replaceRuns isDashU ' ' false l1 with hl2
  set l3 := replaceRuns isJsWs ' ' false l2 with hl3
  set l4 := l3.dropWhile isJsWs with hl4
  set l5 := trimEndL l4 with hl5
  have hl5mem : ∀ c ∈ l5, c ∈ l3 := fun c hc => mem_dropWhile (mem_trimEnd hc)
  have l3dash : ∀ c ∈ l3, isDashU c = false := by
    intro c hc
    rcases mem_replaceRuns hc with h | ⟨h1, _⟩
    · subst h
      rfl
    · rcases mem_replaceRuns h1 with h | ⟨_, h2⟩
      · subst h
        rfl
      · exact h2
  have l3ws : ∀ c ∈ l3, isJsWs c = true → c = ' ' := by
    intro c hc hw
    rcases mem_replaceRuns hc with h | ⟨_, h2⟩
    · exact h
    · rw [hw] at h2
      cases h2
  have h3 := (collapse_shape l2).1
  have h4head : headNot isJsWs l4 = true := headNot_dropWhile _ _
  have h4adj : noTwoAdj isJsWs l4 = true := noTwoAdj_dropWhile h3
  have h5head : headNot isJsWs l5 = true := headNot_trimEnd h4head
  have h5last : lastNot isJsWs l5 = true := lastNot_trimEnd l4
  have h5adj : noTwoAdj isJsWs l5 = true := noTwoAdj_trimEnd h4adj
  refine ⟨?_, ?_, ?_, ?_, ?_, ?_⟩
  · rw [noneSat_iff]
    intro c hc
    unfold toLowerL at hc
    obtain ⟨d, _, hd2⟩ := List.mem_map.mp hc
    rw [← hd2]
    exact isUpperAZ_toLowerChar d
  · rw [noneSat_iff]
    intro c hc
    unfold toLowerL at hc
    obtain ⟨d, hd1, hd2⟩ := List.mem_map.mp hc
    rw [← hd2, isDashU_toLowerChar]
    exact l3dash d (hl5mem d hd1)
  · intro c hc hw
    unfold toLowerL at hc
    obtain ⟨d, hd1, hd2⟩ := List.mem_map.mp hc
    rw [← hd2] at hw ⊢
    rw [isJsWs_toLowerChar] at hw
    have hd := l3ws d (hl5mem d hd1) hw
    rw [hd]
    rw [toLowerChar_eq_self]
    subst hd
    rfl
  · exact headNot_toLowerL h5head
  · exact lastNot_toLowerL h5last
  · exact noTwoAdj_toLowerL h5adj

/-! ## Stage identities on normal-form strings -/

theorem headNot_of_adj {p : Char → Bool} {a : Char} {cs : Str}
    (hadj : noTwoAdj p (a :: cs) = true) (ha : p a = true) :
    headNot p cs = true := by
  cases cs with
  | nil => rfl
  | cons b bs =>
    rw [noTwoAdj_pair] at hadj
    have h1 := (Bool.and_eq_true_iff.mp hadj).1
    rw [ha, Bool.true_and, Bool.not_eq_true'] at h1
    rw [headNot_cons, h1]
    rfl

theorem spaceUpper_id :
    ∀ {l : Str}, (∀ c ∈ l, isUpperAZ c = false) → ∀ b, spaceUpper b l = l := by
  intro l
  induction l with
  | nil => intro _ _; rfl
  | cons a cs ih =>
    intro h b
    have ha : isUpperAZ a = false := h a (List.mem_cons_self a cs)
    rw [spaceUpper_cons, if_neg (Bool.eq_false_iff.mp ha),
      ih (fun c hc => h c (List.mem_cons_of_mem a hc)) false]

theorem replaceRuns_nomatch_id {p : Char → Bool} {r : Char} :
    ∀ {l : Str}, (∀ c ∈ l, p c = false) → ∀ b, replaceRuns p r b l = l := by
  intro l
  induction l with
  | nil => intro _ _; rfl
  | cons a cs ih =>
    intro h b
    have ha : p a = false := h a (List.mem_cons_self a cs)
    rw [replaceRuns_cons, if_neg (Bool.eq_false_iff.mp ha),
      ih (fun c hc => h c (List.mem_cons_of_mem a hc)) false]

theorem replaceRuns_id_aux (p : Char → Bool) (r : Char) :
    ∀ l : Str, (∀ c ∈ l, p c = true → c = r) → noTwoAdj p l = true →
      ((replaceRuns p r false l = l) ∧
        (headNot p l = true → replaceRuns p r true l = l)) := by
  intro l
  induction l with
  | nil => intro _ _; exact ⟨rfl, fun _ => rfl⟩
  | cons a cs ih =>
    intro hall hadj
    have ihcs := ih (fun c hc => hall c (List.mem_cons_of_mem a hc)) (noTwoAdj_tail hadj)
    by_cases ha : p a = true
    · have har : a = r := hall a (List.mem_cons_self a cs) ha
      have hhead := headNot_of_adj hadj ha
      constructor
      · rw [replaceRuns_cons, if_pos ha, if_neg (by decide : ¬((false : Bool) = true))]
        rw [ihcs.2 hhead, har]
      · intro hh
        rw [headNot_cons, ha] at hh
        cases hh
    · constructor
      · rw [replaceRuns_cons, if_neg ha, ihcs.1]
      · intro _
        rw [replaceRuns_cons, if_neg ha, ihcs.1]

theorem dropWhile_id {p : Char → Bool} {l : Str} (h : headNot p l = true) :
    l.dropWhile p = l := by
  cases l with
  | nil => rfl
  | cons a cs =>
    rw [headNot_cons, Bool.not_eq_true'] at h
    rw [List.dropWhile_cons, if_neg (Bool.eq_false_iff.mp h)]

theorem trimEnd_id {l : Str} (h : lastNot isJsWs l = true) : trimEndL l = l := by
  induction l with
  | nil => rfl
  | cons a cs ih =>
    cases cs with
    | nil =>
      rw [lastNot_single, Bool.not_eq_true'] at h
      rw [trimEndL_cons_of_nil a (show trimEndL [] = [] from rfl),
        if_neg (Bool.eq_false_iff.mp h)]
    | cons b bs =>
      have h2 : trimEndL (b :: bs) = b :: bs :=
        ih (by rwa [lastNot_cons_of_ne_nil (by simp)] at h)
      rw [trimEndL_cons_of_cons a h2]

theorem toLowerL_id :
    ∀ {l : Str}, (∀ c ∈ l, isUpperAZ c = false) → toLowerL l = l := by
  intro l
  induction l with
  | nil => intro _; rfl
  | cons a cs ih =>
    intro h
    unfold toLowerL at *
    rw [List.map_cons, toLowerChar_eq_self (h a (List.mem_cons_self a cs)),
      ih (fun c hc => h c (List.mem_cons_of_mem a hc))]

/-- `stripCase` is the identity on strings already in its normal form. -/
theorem stripCaseL_id_of_normal {n : Str}
    (hupper : ∀ c ∈ n, isUpperAZ c = false)
    (hdash : ∀ c ∈ n, isDashU c = false)
    (hws : ∀ c ∈ n, isJsWs c = true → c = ' ')
    (hhead : headNot isJsWs n = true)
    (hlast : lastNot isJsWs n = true)
    (hadj : noTwoAdj isJsWs n = true) :
    stripCaseL n = n := by
  unfold stripCaseL jsTrimL
  rw [spaceUpper_id hupper false, replaceRuns_nomatch_id hdash false,
    (replaceRuns_id_aux isJsWs ' ' n hws hadj).1, dropWhile_id hhead,
    trimEnd_id hlast]
  exact toLowerL_id hupper

theorem stripCaseL_stripCaseL (l : Str) :
    stripCaseL (stripCaseL l) = stripCaseL l := by
  obtain ⟨h1, h2, h3, h4, h5, h6⟩ := stripCase_normal l
  exact stripCaseL_id_of_normal (noneSat_iff.mp h1) (noneSat_iff.mp h2) h3 h4 h5 h6

/-! ## Undoing a whitespace-to-dash substitution -/

theorem dash_undo_aux (r : Char) (hrd : isDashU r = true) :
    ∀ n : Str, (∀ c ∈ n, isDashU c = false) → (∀ c ∈ n, isJsWs c = true → c = ' ') →
      noTwoAdj isJsWs n = true →
      ((replaceRuns isDashU ' ' false (replaceRuns isJsWs r false n) = n) ∧
        (headNot isJsWs n = true →
          replaceRuns isDashU ' ' true (replaceRuns isJsWs r true n) = n)) := by
  intro n
  induction n with
  | nil => intro _ _ _; exact ⟨rfl, fun _ => rfl⟩
  | cons a cs ih =>
    intro hdash hws hadj
    have ihcs := ih (fun c hc => hdash c (List.mem_cons_of_mem a hc))
      (fun c hc => hws c (List.mem_cons_of_mem a hc)) (noTwoAdj_tail hadj)
    by_cases ha : isJsWs a = true
    · have has : a = ' ' := hws a (List.mem_cons_self a cs) ha
      have hhead := headNot_of_adj hadj ha
      constructor
      · rw [replaceRuns_cons, if_pos ha, if_neg (by decide : ¬((false : Bool) = true))]
        rw [replaceRuns_cons, if_pos hrd, if_neg (by decide : ¬((false : Bool) = true))]
        rw [ihcs.2 hhead, has]
      · intro hh
        rw [headNot_cons, ha] at hh
        cases hh
    · have hda : isDashU a = false := hdash a (List.mem_cons_self a cs)
      constructor
      · rw [replaceRuns_cons, if_neg ha]
        rw [replaceRuns_cons, if_neg (Bool.eq_false_iff.mp hda), ihcs.1]
      · intro _
        rw [replaceRuns_cons, if_neg ha]
        rw [replaceRuns_cons, if_neg (Bool.eq_false_iff.mp hda), ihcs.1]

/-- `stripCase` recovers its own output from the output of `snakeCase` or
`kebabCase` (whitespace runs replaced by `_` or `-`). -/
theorem stripCaseL_replaceRuns_ws (l : Str) {r : Char} (hrd : isDashU r = true)
    (hru : isUpperAZ r = false) :
    stripCaseL (replaceRuns isJsWs r false (stripCaseL l)) = stripCaseL l := by
  obtain ⟨h1, h2, h3, h4, h5, h6⟩ := stripCase_normal l
  set n := stripCaseL l with hn
  have huupper : ∀ c ∈ replaceRuns isJsWs r false n, isUpperAZ c = false := by
    intro c hc
    rcases mem_replaceRuns hc with h | ⟨hmem, _⟩
    · subst h
      exact hru
    · exact noneSat_iff.mp h1 c hmem
  show stripCaseL (replaceRuns isJsWs r false n) = n
  unfold stripCaseL jsTrimL
  rw [spaceUpper_id huupper false,
    (dash_undo_aux r hrd n (noneSat_iff.mp h2) h3 h6).1,
    (replaceRuns_id_aux isJsWs ' ' n h3 h6).1,
    dropWhile_id h4, trimEnd_id h5]
  exact toLowerL_id (noneSat_iff.mp h1)

theorem snakeCase_fixed (s : String) : snakeCase (snakeCase s) = snakeCase s := by
  unfold snakeCase stripCase
  apply congrArg String.mk
  exact congrArg (replaceRuns isJsWs '_' false)
    (stripCaseL_replaceRuns_ws s.data (by decide) (by decide))

theorem kebabCase_fixed (s : String) : kebabCase (kebabCase s) = kebabCase s := by
  unfold kebabCase stripCase
  apply congrArg String.mk
  exact congrArg (replaceRuns isJsWs '-' false)
    (stripCaseL_replaceRuns_ws s.data (by decide) (by decide))

theorem stripCase_fixed (s : String) : stripCase (stripCase s) = stripCase s := by
  unfold stripCase
  exact congrArg String.mk (stripCaseL_stripCaseL s.data)

/-! ## The restricted alphabet for title-case idempotence -/

/-- Lower-case ASCII letter or digit. -/
def lowerAlnum (c : Char) : Bool := isLowerAZ c || isDigitChar c

/-- ASCII letter, digit, or space. -/
def alnumOrSpace (c : Char) : Bool :=
  isUpperAZ c || isLowerAZ c || isDigitChar c || c.toNat == 32

/-- Normal form of `stripCase` output over the restricted alphabet:
lower-case alphanumeric words separated by single spaces, no trailing
space, and no leading space when the flag is `true` (the flag records
that the previous character was a space, or the very start). -/
def nalB : Bool → Str → Bool
  | _, [] => true
  | afterSp, c :: cs =>
    (lowerAlnum c || (c.toNat == 32 && !afterSp && !cs.isEmpty)) &&
      nalB (c.toNat == 32) cs

/-- Shape of `upperCaseWords` output on such a normal form: an uppercase
letter may occur only when the flag is `true` (right after a space, or at
the start), and a whitespace character is a single space never following
a space. -/
def wpatB : Bool → Str → Bool
  | _, [] => true
  | afterSp, c :: cs =>
    (!isUpperAZ c || afterSp) && (!isJsWs c || (c.toNat == 32 && !afterSp)) &&
      wpatB (c.toNat == 32) cs

theorem nalB_cons (b : Bool) (c : Char) (cs : Str) :
    nalB b (c :: cs) =
      ((lowerAlnum c || (c.toNat == 32 && !b && !cs.isEmpty)) &&
        nalB (c.toNat == 32) cs) := by
  cases b <;> rfl

theorem wpatB_cons (b : Bool) (c : Char) (cs : Str) :
    wpatB b (c :: cs) =
      ((!isUpperAZ c || b) && (!isJsWs c || (c.toNat == 32 && !b)) &&
        wpatB (c.toNat == 32) cs) := by
  cases b <;> rfl

/-! ### Character-class helpers for the restricted alphabet -/

theorem lowerAlnum_iff {c : Char} : lowerAlnum c = true ↔
    (97 ≤ c.toNat ∧ c.toNat ≤ 122) ∨ (48 ≤ c.toNat ∧ c.toNat ≤ 57) := by
  simp [lowerAlnum, isLowerAZ, isDigitChar]

theorem alnumOrSpace_iff {c : Char} : alnumOrSpace c = true ↔
    (65 ≤ c.toNat ∧ c.toNat ≤ 90) ∨ (97 ≤ c.toNat ∧ c.toNat ≤ 122) ∨
    (48 ≤ c.toNat ∧ c.toNat ≤ 57) ∨ c.toNat = 32 := by
  simp [alnumOrSpace, isUpperAZ, isLowerAZ, isDigitChar]
  tauto

theorem isWordChar_iff {c : Char} : isWordChar c = true ↔
    (65 ≤ c.toNat ∧ c.toNat ≤ 90) ∨ (97 ≤ c.toNat ∧ c.toNat ≤ 122) ∨
    (48 ≤ c.toNat ∧ c.toNat ≤ 57) ∨ c.toNat = 95 := by
  simp [isWordChar, isUpperAZ, isLowerAZ, isDigitChar]
  tauto

theorem beq32_eq_space {c : Char} (h : (c.toNat == 32) = true) : c = ' ' := by
  apply char_eq_of_toNat_eq
  have h1 : c.toNat = 32 := by simpa using h
  rw [h1]
  decide

theorem ws_of_beq32 {c : Char} (h : (c.toNat == 32) = true) : isJsWs c = true := by
  rw [beq32_eq_space h]
  decide

theorem beq32_false_of_notWs {c : Char} (h : isJsWs c = false) :
    (c.toNat == 32) = false := by
  rw [Bool.eq_false_iff]
  intro hb
  rw [ws_of_beq32 hb] at h
  cases h

theorem lowerAlnum_not_upper {c : Char} (h : lowerAlnum c = true) :
    isUpperAZ c = false := by
  rw [Bool.eq_false_iff]
  intro hu
  have h1 := lowerAlnum_iff.mp h
  have h2 := isUpperAZ_iff.mp hu
  omega

theorem lowerAlnum_not_ws {c : Char} (h : lowerAlnum c = true) :
    isJsWs c = false := by
  rw [Bool.eq_false_iff]
  intro hw
  have h1 := lowerAlnum_iff.mp h
  have h2 := isJsWs_iff.mp hw
  omega

theorem lowerAlnum_not_beq32 {c : Char} (h : lowerAlnum c = true) :
    (c.toNat == 32) = false :=
  beq32_false_of_notWs (lowerAlnum_not_ws h)

theorem lowerAlnum_word {c : Char} (h : lowerAlnum c = true) :
    isWordChar c = true := by
  rw [isWordChar_iff]
  have h1 := lowerAlnum_iff.mp h
  omega

theorem lowerAlnum_not_dash {c : Char} (h : lowerAlnum c = true) :
    isDashU c = false := by
  rw [Bool.eq_false_iff]
  intro hd
  have h1 := lowerAlnum_iff.mp h
  have h2 := isDashU_iff.mp hd
  omega

theorem upper_not_ws {c : Char} (h : isUpperAZ c = true) : isJsWs c = false := by
  rw [Bool.eq_false_iff]
  intro hw
  have h1 := isUpperAZ_iff.mp h
  have h2 := isJsWs_iff.mp hw
  omega

theorem upper_not_dash {c : Char} (h : isUpperAZ c = true) : isDashU c = false := by
  rw [Bool.eq_false_iff]
  intro hd
  have h1 := isUpperAZ_iff.mp h
  have h2 := isDashU_iff.mp hd
  omega

theorem isDashU_toUpperChar (c : Char) : isDashU (toUpperChar c) = isDashU c := by
  by_cases h : isLowerAZ c = true
  · have hu := isLowerAZ_iff.mp h
    have hl : (toUpperChar c).toNat = c.toNat - 32 := by
      rw [toNat_toUpperChar, if_pos h]
    have e1 : isDashU (toUpperChar c) = false := by
      rw [Bool.eq_false_iff]
      intro hw
      have := isDashU_iff.mp hw
      omega
    have e2 : isDashU c = false := by
      rw [Bool.eq_false_iff]
      intro hw
      have := isDashU_iff.mp hw
      omega
    rw [e1, e2]
  · rw [toUpperChar_eq_self (Bool.eq_false_iff.mpr h)]

theorem toUpperChar_not_beq32 {c : Char} (h : lowerAlnum c = true) :
    ((toUpperChar c).toNat == 32) = false := by
  apply beq32_false_of_notWs
  rw [isJsWs_toUpperChar]
  exact lowerAlnum_not_ws h

theorem lowerAlnum_toLowerChar {c : Char} (h : alnumOrSpace c = true) :
    lowerAlnum (toLowerChar c) = true ∨ toLowerChar c = ' ' := by
  by_cases hu : isUpperAZ c = true
  · left
    rw [lowerAlnum_iff, toNat_toLowerChar, if_pos hu]
    have := isUpperAZ_iff.mp hu
    omega
  · rw [toLowerChar_eq_self (Bool.eq_false_iff.mpr hu)]
    have h1 := alnumOrSpace_iff.mp h
    have h2 : ¬(65 ≤ c.toNat ∧ c.toNat ≤ 90) := by
      intro hc
      exact hu (isUpperAZ_iff.mpr hc)
    rcases h1 with h1 | h1 | h1 | h1
    · exact absurd h1 h2
    · exact Or.inl (lowerAlnum_iff.mpr (Or.inl h1))
    · exact Or.inl (lowerAlnum_iff.mpr (Or.inr h1))
    · exact Or.inr (char_eq_of_toNat_eq h1)

/-! ### Character classes through `stripCase` -/

theorem mem_upperWordsL :
    ∀ {b : Bool} {l : Str} {c : Char}, c ∈ upperWordsL b l →
      c ∈ l ∨ ∃ d ∈ l, c = toUpperChar d := by
  intro b l
  induction l generalizing b with
  | nil => intro c h; cases h
  | cons a cs ih =>
    intro c h
    rw [upperWordsL_cons] at h
    rcases List.mem_cons.mp h with h | h
    · by_cases ha : (isWordChar a && !b) = true
      · rw [if_pos ha] at h
        exact Or.inr ⟨a, List.mem_cons_self a cs, h⟩
      · rw [if_neg ha] at h
        exact Or.inl (h ▸ List.mem_cons_self a cs)
    · rcases ih h with h | ⟨d, hd, he⟩
      · exact Or.inl (List.mem_cons_of_mem a h)
      · exact Or.inr ⟨d, List.mem_cons_of_mem a hd, he⟩

/-- On an alphanumeric-and-space input, every character of the
`stripCase` output is a lower-case alphanumeric or a space. -/
theorem stripCase_charclass {l : Str} (h : ∀ c ∈ l, alnumOrSpace c = true) :
    ∀ c ∈ stripCaseL l, lowerAlnum c = true ∨ c = ' ' := by
  have h1 : ∀ c ∈ spaceUpper false l, alnumOrSpace c = true := by
    intro c hc
    rcases mem_spaceUpper hc with hc | hc
    · subst hc
      decide
    · exact h c hc
  have h2 : ∀ c ∈ replaceRuns isDashU ' ' false (spaceUpper false l),
      alnumOrSpace c = true := by
    intro c hc
    rcases mem_replaceRuns hc with hc | ⟨hc, _⟩
    · subst hc
      decide
    · exact h1 c hc
  have h3 : ∀ c ∈ replaceRuns isJsWs ' ' false
      (replaceRuns isDashU ' ' false (spaceUpper false l)), alnumOrSpace c = true := by
    intro c hc
    rcases mem_replaceRuns hc with hc | ⟨hc, _⟩
    · subst hc
      decide
    · exact h2 c hc
  intro c hc
  unfold stripCaseL jsTrimL toLowerL at hc
  obtain ⟨d, hd1, hd2⟩ := List.mem_map.mp hc
  have hd3 := h3 d (mem_dropWhile (mem_trimEnd hd1))
  rw [← hd2]
  exact lowerAlnum_toLowerChar hd3

/-! ### From the normal-form facts to `nalB` -/

theorem nalB_of_props :
    ∀ n : Str, (∀ c ∈ n, lowerAlnum c = true ∨ c = ' ') →
      noTwoAdj isJsWs n = true → lastNot isJsWs n = true →
      ∀ b : Bool, (b = true → headNot isJsWs n = true) → nalB b n = true := by
  intro n
  induction n with
  | nil => intro _ _ _ b _; cases b <;> rfl
  | cons c cs ih =>
    intro hch hadj hlast b hb
    have hchcs : ∀ e ∈ cs, lowerAlnum e = true ∨ e = ' ' :=
      fun e he => hch e (List.mem_cons_of_mem c he)
    have hlastcs : lastNot isJsWs cs = true := by
      cases cs with
      | nil => rfl
      | cons d ds => rwa [lastNot_cons_of_ne_nil (by simp)] at hlast
    rw [nalB_cons]
    rcases hch c (List.mem_cons_self c cs) with hc | hc
    · have hf := lowerAlnum_not_beq32 hc
      rw [hc, Bool.true_or, Bool.true_and, hf]
      exact ih hchcs (noTwoAdj_tail hadj) hlastcs false (by intro h; cases h)
    · subst hc
      have hwsc : isJsWs ' ' = true := by decide
      have hbf : b = false := by
        cases hbv : b
        · rfl
        · have := hb hbv
          rw [headNot_cons, hwsc] at this
          cases this
      have hne : cs ≠ [] := by
        intro he
        subst he
        rw [lastNot_single, hwsc] at hlast
        cases hlast
      have hcse : cs.isEmpty = false := by
        cases cs with
        | nil => exact absurd rfl hne
        | cons d ds => rfl
      have hlai : lowerAlnum ' ' = false := by decide
      have h32 : ((' ').toNat == 32) = true := by decide
      rw [hlai, hbf, hcse, h32]
      have := ih hchcs (noTwoAdj_tail hadj) hlastcs true
        (fun _ => headNot_of_adj hadj hwsc)
      rw [this]
      rfl

/-! ### `upperCaseWords` output satisfies the word pattern -/

theorem wpat_upperWords :
    ∀ n : Str,
      ((nalB true n = true → wpatB true (upperWordsL false n) = true) ∧
        (nalB false n = true → wpatB false (upperWordsL true n) = true)) := by
  intro n
  induction n with
  | nil => exact ⟨fun _ => rfl, fun _ => rfl⟩
  | cons c cs ih =>
    constructor
    · intro h
      rw [nalB_cons] at h
      have h1 := (Bool.and_eq_true_iff.mp h).1
      have h2 := (Bool.and_eq_true_iff.mp h).2
      rw [Bool.not_true, Bool.and_false, Bool.false_and, Bool.or_false] at h1
      have hword : isWordChar c = true := lowerAlnum_word h1
      have hf := lowerAlnum_not_beq32 h1
      rw [hf] at h2
      rw [upperWordsL_cons, hword, Bool.not_false, Bool.and_true, if_pos rfl]
      rw [wpatB_cons]
      have hws : isJsWs (toUpperChar c) = false := by
        rw [isJsWs_toUpperChar]
        exact lowerAlnum_not_ws h1
      rw [hws, Bool.not_false, Bool.true_or, Bool.or_true, Bool.true_and,
        Bool.true_and, toUpperChar_not_beq32 h1]
      exact ih.2 h2
    · intro h
      rw [nalB_cons] at h
      have h1 := (Bool.and_eq_true_iff.mp h).1
      have h2 := (Bool.and_eq_true_iff.mp h).2
      rcases Bool.or_eq_true_iff.mp h1 with hla | hsp
      · have hword : isWordChar c = true := lowerAlnum_word hla
        have hf := lowerAlnum_not_beq32 hla
        rw [hf] at h2
        rw [upperWordsL_cons, hword, Bool.not_true, Bool.and_false, if_neg (by decide)]
        rw [wpatB_cons, lowerAlnum_not_upper hla, Bool.not_false, Bool.true_or,
          lowerAlnum_not_ws hla, Bool.not_false, Bool.true_or, Bool.true_and, hf]
        exact ih.2 h2
      · have h32 : (c.toNat == 32) = true := (Bool.and_eq_true_iff.mp
          (Bool.and_eq_true_iff.mp hsp).1).1
        have hceq : c = ' ' := beq32_eq_space h32
        subst hceq
        rw [h32] at h2
        have hwd : isWordChar ' ' = false := by decide
        rw [upperWordsL_cons, hwd, Bool.false_and, if_neg (by decide)]
        rw [wpatB_cons]
        have e1 : isUpperAZ ' ' = false := by decide
        have e2 : isJsWs ' ' = true := by decide
        have e3 : ((' ').toNat == 32) = true := by decide
        rw [e1, e2, e3, ih.1 h2]
        decide

/-! ### The collapse stage undoes the inserted word-break spaces -/

theorem spaceUpper_flag {l : Str} (h : headNot isUpperAZ l = true) :
    spaceUpper true l = spaceUpper false l := by
  cases l with
  | nil => rfl
  | cons a cs =>
    rw [headNot_cons, Bool.not_eq_true'] at h
    rw [spaceUpper_cons, spaceUpper_cons, if_neg (Bool.eq_false_iff.mp h),
      if_neg (Bool.eq_false_iff.mp h)]

theorem wpatB_false_headNotUpper {l : Str} (h : wpatB false l = true) :
    headNot isUpperAZ l = true := by
  cases l with
  | nil => rfl
  | cons c cs =>
    rw [wpatB_cons] at h
    have h1 := (Bool.and_eq_true_iff.mp (Bool.and_eq_true_iff.mp h).1).1
    rw [Bool.or_false] at h1
    rw [headNot_cons]
    exact h1

theorem wpatB_true_headNotWs {l : Str} (h : wpatB true l = true) :
    headNot isJsWs l = true := by
  cases l with
  | nil => rfl
  | cons c cs =>
    rw [wpatB_cons] at h
    have h2 := (Bool.and_eq_true_iff.mp (Bool.and_eq_true_iff.mp h).1).2
    rw [Bool.not_true, Bool.and_false, Bool.or_false] at h2
    rw [headNot_cons]
    exact h2

theorem wpatB_true_to_false {c : Char} {cs : Str} (h : wpatB true (c :: cs) = true)
    (hu : isUpperAZ c = false) : wpatB false (c :: cs) = true := by
  rw [wpatB_cons] at h ⊢
  have h1 := Bool.and_eq_true_iff.mp h
  have h12 := Bool.and_eq_true_iff.mp h1.1
  have hws : (!isJsWs c) = true := by
    have := h12.2
    rwa [Bool.not_true, Bool.and_false, Bool.or_false] at this
  rw [hu]
  simp [hws, h1.2]

theorem collapse_spaceUpper :
    ∀ w : Str,
      ((wpatB false w = true →
          replaceRuns isJsWs ' ' false (spaceUpper false w) = w) ∧
        (wpatB true w = true →
          replaceRuns isJsWs ' ' true (spaceUpper false w) = w)) := by
  intro w
  induction w with
  | nil => exact ⟨fun _ => rfl, fun _ => rfl⟩
  | cons c cs ih =>
    constructor
    · intro h
      rw [wpatB_cons] at h
      have h1 := Bool.and_eq_true_iff.mp h
      have h12 := Bool.and_eq_true_iff.mp h1.1
      have hu : isUpperAZ c = false := by
        have := h12.1
        rwa [Bool.or_false, Bool.not_eq_true'] at this
      by_cases hws : isJsWs c = true
      · have hsp : (c.toNat == 32) = true := by
          have := h12.2
          rwa [hws, Bool.not_true, Bool.false_or, Bool.not_false, Bool.and_true] at this
        have hceq : c = ' ' := beq32_eq_space hsp
        subst hceq
        have htail : wpatB true cs = true := by
          have := h1.2
          rwa [(by decide : ((' ').toNat == 32) = true)] at this
        rw [spaceUpper_cons, if_neg (by decide : ¬(isUpperAZ ' ' = true))]
        rw [replaceRuns_cons, if_pos (by decide : isJsWs ' ' = true),
          if_neg (by decide : ¬((false : Bool) = true))]
        rw [ih.2 htail]
      · have hf : (c.toNat == 32) = false :=
          beq32_false_of_notWs (Bool.eq_false_iff.mpr hws)
        have htail : wpatB false cs = true := by
          have := h1.2
          rwa [hf] at this
        rw [spaceUpper_cons, if_neg (Bool.eq_false_iff.mp hu)]
        rw [replaceRuns_cons, if_neg hws]
        rw [ih.1 htail]
    · intro h
      rw [wpatB_cons] at h
      have h1 := Bool.and_eq_true_iff.mp h
      have h12 := Bool.and_eq_true_iff.mp h1.1
      have hnws : isJsWs c = false := by
        have := h12.2
        rwa [Bool.not_true, Bool.and_false, Bool.or_false, Bool.not_eq_true'] at this
      have hf : (c.toNat == 32) = false := beq32_false_of_notWs hnws
      have htail : wpatB false cs = true := by
        have := h1.2
        rwa [hf] at this
      by_cases hup : isUpperAZ c = true
      · rw [spaceUpper_cons, if_pos hup, if_neg (by decide : ¬((false : Bool) = true))]
        rw [spaceUpper_flag (wpatB_false_headNotUpper htail)]
        rw [replaceRuns_cons, if_pos (by decide : isJsWs ' ' = true),
          if_pos (rfl : (true : Bool) = true)]
        rw [replaceRuns_cons, if_neg (Bool.eq_false_iff.mp hnws)]
        rw [ih.1 htail]
      · rw [spaceUpper_cons, if_neg hup]
        rw [replaceRuns_cons, if_neg (Bool.eq_false_iff.mp hnws)]
        rw [ih.1 htail]

/-! ### `stripCase` recovers the normal form from `upperCaseWords` output -/

theorem upperWordsL_ne_nil {b : Bool} {c : Char} {cs : Str} :
    upperWordsL b (c :: cs) ≠ [] := by
  rw [upperWordsL_cons]
  simp

theorem lastNot_upperWordsL :
    ∀ {l : Str}, lastNot isJsWs l = true →
      ∀ b, lastNot isJsWs (upperWordsL b l) = true := by
  intro l
  induction l with
  | nil => intro _ _; rfl
  | cons c cs ih =>
    intro h b
    cases cs with
    | nil =>
      rw [lastNot_single] at h
      rw [upperWordsL_cons]
      have he : upperWordsL (isWordChar c) ([] : Str) = [] := rfl
      rw [he, lastNot_single]
      by_cases hw : (isWordChar c && !b) = true
      · rw [if_pos hw, isJsWs_toUpperChar]
        exact h
      · rw [if_neg hw]
        exact h
    | cons d ds =>
      rw [lastNot_cons_of_ne_nil (by simp)] at h
      rw [upperWordsL_cons, lastNot_cons_of_ne_nil upperWordsL_ne_nil]
      exact ih h _

theorem toLowerL_upperWordsL :
    ∀ {l : Str}, (∀ c ∈ l, isUpperAZ c = false) →
      ∀ b, toLowerL (upperWordsL b l) = l := by
  intro l
  induction l with
  | nil => intro _ _; rfl
  | cons c cs ih =>
    intro h b
    rw [upperWordsL_cons]
    unfold toLowerL at *
    rw [List.map_cons]
    have hc := h c (List.mem_cons_self c cs)
    rw [ih (fun e he => h e (List.mem_cons_of_mem c he)) (isWordChar c)]
    by_cases hw : (isWordChar c && !b) = true
    · rw [if_pos hw, toLowerChar_toUpperChar hc]
    · rw [if_neg hw, toLowerChar_eq_self hc]

theorem trim_collapse_spaceUpper {t : Str} (hw : wpatB true t = true)
    (hlast : lastNot isJsWs t = true) :
    jsTrimL (replaceRuns isJsWs ' ' false (spaceUpper false t)) = t := by
  unfold jsTrimL
  cases t with
  | nil => rfl
  | cons c cs =>
    have h := hw
    rw [wpatB_cons] at h
    have h1 := Bool.and_eq_true_iff.mp h
    have h12 := Bool.and_eq_true_iff.mp h1.1
    have hnws : isJsWs c = false := by
      have := h12.2
      rwa [Bool.not_true, Bool.and_false, Bool.or_false, Bool.not_eq_true'] at this
    have hf : (c.toNat == 32) = false := beq32_false_of_notWs hnws
    have htail : wpatB false cs = true := by
      have := h1.2
      rwa [hf] at this
    by_cases hup : isUpperAZ c = true
    · rw [spaceUpper_cons, if_pos hup, if_neg (by decide : ¬((false : Bool) = true))]
      rw [spaceUpper_flag (wpatB_false_headNotUpper htail)]
      rw [replaceRuns_cons, if_pos (by decide : isJsWs ' ' = true),
        if_neg (by decide : ¬((false : Bool) = true))]
      rw [replaceRuns_cons, if_neg (Bool.eq_false_iff.mp hnws)]
      rw [(collapse_spaceUpper cs).1 htail]
      rw [List.dropWhile_cons, if_pos (by decide : isJsWs ' ' = true)]
      rw [List.dropWhile_cons, if_neg (Bool.eq_false_iff.mp hnws)]
      exact trimEnd_id hlast
    · have hu : isUpperAZ c = false := Bool.eq_false_iff.mpr hup
      rw [(collapse_spaceUpper (c :: cs)).1 (wpatB_true_to_false hw hu)]
      rw [dropWhile_id (wpatB_true_headNotWs hw)]
      exact trimEnd_id hlast

theorem stripCaseL_upperWordsL {n : Str}
    (hch : ∀ c ∈ n, lowerAlnum c = true ∨ c = ' ')
    (hnal : nalB true n = true)
    (hlast : lastNot isJsWs n = true) :
    stripCaseL (upperWordsL false n) = n := by
  have hupper : ∀ c ∈ n, isUpperAZ c = false := by
    intro c hc
    rcases hch c hc with h | h
    · exact lowerAlnum_not_upper h
    · subst h
      decide
  have hdash : ∀ c ∈ spaceUpper false (upperWordsL false n), isDashU c = false := by
    intro c hc
    rcases mem_spaceUpper hc with hc | hc
    · subst hc
      decide
    · rcases mem_upperWordsL hc with hc | ⟨d, hd, he⟩
      · rcases hch c hc with h | h
        · exact lowerAlnum_not_dash h
        · subst h
          decide
      · subst he
        rw [isDashU_toUpperChar]
        rcases hch d hd with h | h
        · exact lowerAlnum_not_dash h
        · subst h
          decide
  have hwt : wpatB true (upperWordsL false n) = true := (wpat_upperWords n).1 hnal
  have hlt : lastNot isJsWs (upperWordsL false n) = true := lastNot_upperWordsL hlast false
  unfold stripCaseL
  rw [replaceRuns_nomatch_id hdash false]
  rw [trim_collapse_spaceUpper hwt hlt]
  exact toLowerL_upperWordsL hupper false

/-- `titleCase` is a fixed point of itself on strings over the ASCII
alphanumeric-and-space alphabet. -/
theorem titleCase_fixed_of_alnum {s : String}
    (h : ∀ c ∈ s.data, alnumOrSpace c = true) :
    titleCase (titleCase s) = titleCase s := by
  have hn := stripCase_normal s.data
  have hch := stripCase_charclass h
  have hnal : nalB true (stripCaseL s.data) = true :=
    nalB_of_props _ hch hn.2.2.2.2.2 hn.2.2.2.2.1 true (fun _ => hn.2.2.2.1)
  show String.mk (upperWordsL false (stripCaseL (upperWordsL false (stripCaseL s.data)))) =
    String.mk (upperWordsL false (stripCaseL s.data))
  rw [stripCaseL_upperWordsL hch hnal hn.2.2.2.2.1]

/-! ## Keywords splitting and quoting -/

/-- `String.prototype.split(",")`: split at every comma; the empty string
yields one empty segment. -/
def splitCommaL : Str → List Str
  | [] => [[]]
  | c :: cs =>
    match splitCommaL cs with
    | [] => [[]]
    | w :: ws => if c = ',' then [] :: w :: ws else (c :: w) :: ws

/-- `Array.prototype.join(", ")`. -/
def joinCommaSpace : List Str → Str
  | [] => []
  | [w] => w
  | w :: ws => w ++ ',' :: ' ' :: joinCommaSpace ws

/-- The replacement computed in the source for the quoted keywords token:
`keywords.split(",").map((str) => `"${str.trim()}"`).join(", ")`. -/
def quotedKeywordsL (kw : Str) : Str :=
  joinCommaSpace ((splitCommaL kw).map (fun s => '"' :: (jsTrimL s ++ ['"'])))

/-- String wrapper for `quotedKeywordsL`. -/
def quotedKeywords (kw : String) : String := ⟨quotedKeywordsL kw.data⟩

/-- The spec wording of the same value: the keywords string split on
commas, each segment trimmed of surrounding whitespace and wrapped in
double quotes, the results joined by a comma and a space. -/
def specKeywordsL (kw : Str) : Str :=
  List.intercalate [',', ' ']
    ((splitCommaL kw).map (fun s => ['"'] ++ jsTrimL s ++ ['"']))

/-- String wrapper for `specKeywordsL`. -/
def specKeywords (kw : String) : String := ⟨specKeywordsL kw.data⟩

theorem joinCommaSpace_eq_intercalate :
    ∀ ws : List Str, joinCommaSpace ws = List.intercalate [',', ' '] ws := by
  intro ws
  induction ws with
  | nil => rfl
  | cons w rest ih =>
    cases rest with
    | nil => simp [joinCommaSpace, List.intercalate]
    | cons v vs =>
      have e1 : joinCommaSpace (w :: v :: vs) = w ++ ',' :: ' ' :: joinCommaSpace (v :: vs) := rfl
      rw [e1, ih]
      simp [List.intercalate, List.intersperse]

theorem quotedKeywordsL_eq_spec (kw : Str) : quotedKeywordsL kw = specKeywordsL kw := by
  unfold quotedKeywordsL specKeywordsL
  rw [joinCommaSpace_eq_intercalate]
  rfl

example : quotedKeywords "responsive, modern" = "\"responsive\", \"modern\"" := by decide
example : quotedKeywords "" = "\"\"" := by decide

/-! ## The orchestration flow

The three entry points are sequential orchestrations of external
collaborators.  `execSync`, the `replace-in-file` library and the cloned
working tree are modelled by an environment of oracles; `fs/promises`
operations receive their documented semantics over an explicit map from
paths to file contents. -/

/-- Answers collected by the prompt stage. -/
structure Answers where
  slug : String
  displayName : String
  description : String
  authorName : String
  authorSlug : String
  authorUri : String
  githubUri : String
  uri : String
  keywords : String
  textDomain : String
  funcPrefixAns : String
  classPrefixAns : String
deriving DecidableEq

/-- `path.join(a, b)`. -/
def pathJoin (a b : String) : String := a ++ "/" ++ b

def pathPackage (repoName : String) : String := pathJoin repoName "package.json"

def pathPackageSample (repoName : String) : String := pathJoin repoName "package-sample.json"

def pathComposer (repoName : String) : String := pathJoin repoName "composer.json"

def pathComposerSample (repoName : String) : String := pathJoin repoName "composer-sample.json"

def pathComposerIncludes (repoName : String) : String :=
  pathJoin repoName (pathJoin "includes" "composer.json")

def pathComposerIncludesSample (repoName : String) : String :=
  pathJoin repoName (pathJoin "includes" "composer-sample.json")

def pathStyleCSS (repoName : String) : String := pathJoin repoName "style.css"

/-- `commands.gitCheckout` of the evolved variant and of `bin/cli.js`. -/
def gitCheckoutCmd (repoName : String) : String :=
  "git clone -b npx --depth 1 https://github.com/Denman-Digital/wp-theme-starter.git  "
    ++ repoName

/-- `commands.newRepo` of the evolved variant. -/
def newRepoCmd (repoName : String) : String :=
  "cd " ++ repoName ++
    " && rm -rf .git && git init && git add --all && git commit -m \"Created new theme from wp-theme-starter\""

/-- `commands.installDeps` of the evolved variant and of `bin/cli.js`. -/
def installDepsCmd (repoName : String) : String := "cd " ++ repoName ++ " && npm install"

/-- File system: a map from paths to file contents. -/
abbrev Fs := List (String × String)

/-- `fs.access` success condition: the path exists. -/
def fsHas (fs : Fs) (p : String) : Bool := (fs.lookup p).isSome

/-- Remove a path. -/
def fsErase (fs : Fs) (p : String) : Fs := fs.filter (fun e => e.1 ≠ p)

/-- `fs.rename src dst`: move the contents of `src` to `dst`
(overwriting `dst`); requires `src` to exist. -/
def fsRename (fs : Fs) (src dst : String) : Fs :=
  match fs.lookup src with
  | none => fs
  | some content => (dst, content) :: fsErase (fsErase fs src) dst

/-- Which syntactic command site of the source an external invocation
came from. -/
inductive CmdTag
  | clone
  | reset
  | install
deriving DecidableEq

/-- A file selector of a `replace-in-file` call. -/
inductive FileSel
  | files (ps : List String)
  | glob (pattern : String) (ignorePattern : Option String)
deriving DecidableEq

/-- A pattern handed to `replace-in-file`: a global regex or a literal. -/
inductive Pat
  | regex (src : String)
  | lit (s : String)
deriving DecidableEq

/-- One configured `replace-in-file` call. -/
structure SubstCall where
  sel : FileSel
  fromPats : List Pat
  toRepls : List String
  dry : Bool
deriving DecidableEq

/-- Observable side effects of a run. -/
inductive Effect
  | runCmd (tag : CmdTag) (cmd : String) (ok : Bool)
  | fsAccess (path : String) (ok : Bool)
  | fsRm (path : String)
  | fsMove (src dst : String)
  | substPass (call : SubstCall)
  | logErr (msg : String)
  | warn (msg : String)
  | timerReject
deriving DecidableEq

/-- A JavaScript error value. -/
inductive JsErr
  | referenceError (name : String)
deriving DecidableEq

/-- How the process ends. -/
inductive Outcome
  | exit (code : Int)
  | finished
  | rejected (e : JsErr)
deriving DecidableEq

/-- POSIX exit status of the process: `process.exit(c)` reports `c`
modulo 256, normal completion reports 0, and an unhandled promise
rejection makes Node terminate with status 1. -/
def processExitCode : Outcome → Int
  | Outcome.exit c => c.emod 256
  | Outcome.finished => 0
  | Outcome.rejected _ => 1

/-- Observable result of one run. -/
structure RunResult where
  fs : Fs
  effects : List Effect
  outcome : Outcome

/-- Environment of external collaborators. -/
structure Env where
  cmdOk : String → Bool
  clonedFs : Fs
  substThrows : Nat → Bool
  runReplace : SubstCall → Fs → Fs

/-- Identifiers bound in the module scope of the evolved variant
(`src/unnamed/part_001`).  `toNumber`, applied by `setTimer`, is not
among them and is not a JS global. -/
def part001ModuleScope : List String :=
  ["execSync", "prompts", "replaceInFiles", "fs", "path",
   "stripCase", "upperCaseWords", "titleCase", "snakeCase", "titleSnakeCase",
   "kebabCase", "setTimer", "runCommand", "repoName", "commands", "paths"]

/-- `setTimer` from the source: the promise executor evaluates
`setTimeout(resolve, toNumber(duration))`; resolving the unbound
identifier `toNumber` throws a `ReferenceError` inside the executor,
which rejects the returned promise. -/
def setTimer (_duration : Int) : Except JsErr Unit :=
  if "toNumber" ∈ part001ModuleScope then Except.ok ()
  else Except.error (JsErr.referenceError "toNumber")

/-! ### The configured substitution passes -/

/-- The five `replaceInFiles` calls of the evolved variant, in program
order. -/
def part001SubstCalls (repoName : String) (a : Answers) : List SubstCall :=
  [ { sel := FileSel.files [pathStyleCSS repoName, pathPackage repoName,
        pathComposer repoName, pathComposerIncludes repoName],
      fromPats := [Pat.regex "<theme_slug>", Pat.regex "<theme_display_name>",
        Pat.regex "<theme_description>", Pat.regex "<theme_author_name>",
        Pat.regex "<theme_author_uri>", Pat.regex "<theme_author_slug>",
        Pat.regex "<theme_github_uri>", Pat.regex "<theme_uri>",
        Pat.regex "wp-theme-starter-text-domain"],
      toRepls := [a.slug, a.displayName, a.description, a.authorName, a.authorUri,
        a.authorSlug, a.githubUri, a.uri, a.textDomain],
      dry := false },
    { sel := FileSel.files [pathStyleCSS repoName],
      fromPats := [Pat.lit "<theme_keywords>"],
      toRepls := [a.keywords],
      dry := false },
    { sel := FileSel.files [pathPackage repoName, pathComposer repoName,
        pathComposerIncludes repoName],
      fromPats := [Pat.lit "\"<theme_keywords>\""],
      toRepls := [quotedKeywords a.keywords],
      dry := false },
    { sel := FileSel.glob (pathJoin repoName "**/*.php") (some "**/vendor/**/*.php"),
      fromPats := [Pat.regex "<theme_slug>", Pat.regex "wp-theme-starter-text-domain",
        Pat.regex "wp_theme_starter_", Pat.regex "WP_Theme_Starter_"],
      toRepls := [a.slug, a.textDomain, a.funcPrefixAns, a.classPrefixAns],
      dry := false },
    { sel := FileSel.files [pathJoin repoName "readme.md"],
      fromPats := [Pat.regex "<!-- start_banner.*end_banner -->"],
      toRepls := ["# " ++ a.displayName ++ "\n\n" ++ a.description ++
        "\n\nBased on [Denman WP Theme Starter](https://github.com/Denman-Digital/wp-theme-starter/)\n\n"],
      dry := false } ]

/-- The five `replaceInFiles` calls of `bin/cli.js`, in program order:
every one of them carries `dry: true`. -/
def cliSubstCalls (repoName : String) (a : Answers) : List SubstCall :=
  [ { sel := FileSel.files [pathStyleCSS repoName, pathPackage repoName],
      fromPats := [Pat.regex "<theme_slug>", Pat.regex "<theme_display_name>",
        Pat.regex "<theme_description>", Pat.regex "<theme_author_name>",
        Pat.regex "<theme_author_uri>", Pat.regex "<theme_github_uri>",
        Pat.regex "<theme_uri>", Pat.regex "wp-theme-starter-text-domain"],
      toRepls := [a.slug, a.displayName, a.description, a.authorName, a.authorUri,
        a.githubUri, a.uri, a.textDomain],
      dry := true },
    { sel := FileSel.files [pathStyleCSS repoName],
      fromPats := [Pat.lit "<theme_keywords>"],
      toRepls := [a.keywords],
      dry := true },
    { sel := FileSel.files [pathPackage repoName],
      fromPats := [Pat.lit "\"<theme_keywords>\""],
      toRepls := [quotedKeywords a.keywords],
      dry := true },
    { sel := FileSel.glob (pathJoin repoName "**/*.php") (some "**/vendor/**/*.php"),
      fromPats := [Pat.regex "<theme_slug>", Pat.regex "wp-theme-starter-text-domain",
        Pat.regex "wp_theme_starter_", Pat.regex "WP_Theme_Starter_"],
      toRepls := [a.slug, a.textDomain, a.funcPrefixAns, a.classPrefixAns],
      dry := true },
    { sel := FileSel.files [pathJoin repoName "readme.md"],
      fromPats := [Pat.regex "<!-- start_banner .* end_banner -->"],
      toRepls := ["# " ++ a.displayName ++ "\n\n" ++ a.description ++
        "\n\nBased on [Denman WP Theme Starter](https://github.com/Denman-Digital/wp-theme-starter/)\x7d\n\n"],
      dry := true } ]

/-- Run the calls of one `try` block in order.  A call whose promise the
environment makes reject aborts the rest of the block (the exception is
caught at the top level and logged); in dry mode nothing is written,
otherwise the environment oracle transforms the file system. -/
def runSubstStage (env : Env) : Nat → List SubstCall → Fs → Fs × List Effect
  | _, [], fs => (fs, [])
  | i, call :: rest, fs =>
    if env.substThrows i then
      (fs, [Effect.substPass call, Effect.logErr "substitution pass failed"])
    else
      let fs1 := if call.dry then fs else env.runReplace call fs
      let next := runSubstStage env (i + 1) rest fs1
      (next.1, Effect.substPass call :: next.2)

/-! ### The manifest promoter -/

/-- First promotion `try` block (both variants):
`access(packageSample); rm(package); rename(packageSample, package)`,
any failure caught and logged. -/
def promotePackage (repoName : String) (fs : Fs) : Fs × List Effect :=
  let pkg := pathPackage repoName
  let sample := pathPackageSample repoName
  if fsHas fs sample then
    if fsHas fs pkg then
      let fs1 := fsErase fs pkg
      (fsRename fs1 sample pkg,
        [Effect.fsAccess sample true, Effect.fsRm pkg, Effect.fsMove sample pkg])
    else
      (fs, [Effect.fsAccess sample true,
        Effect.logErr "Unable to generate new package.json from package-sample.json"])
  else
    (fs, [Effect.fsAccess sample false,
      Effect.logErr "Unable to generate new package.json from package-sample.json"])

/-- Second promotion `try` block of the evolved variant.  Faithful to the
source: the block checks `paths.packageSample` (not the composer sample)
before removing and renaming the composer manifests. -/
def promoteComposer (repoName : String) (fs : Fs) : Fs × List Effect :=
  let sample := pathPackageSample repoName
  let comp := pathComposer repoName
  let compS := pathComposerSample repoName
  let inc := pathComposerIncludes repoName
  let incS := pathComposerIncludesSample repoName
  let failMsg := "Unable to generate new composer.json's"
  if fsHas fs sample then
    if fsHas fs comp then
      let fs1 := fsErase fs comp
      if fsHas fs1 compS then
        let fs2 := fsRename fs1 compS comp
        if fsHas fs2 inc then
          let fs3 := fsErase fs2 inc
          if fsHas fs3 incS then
            (fsRename fs3 incS inc,
              [Effect.fsAccess sample true, Effect.fsRm comp, Effect.fsMove compS comp,
                Effect.fsRm inc, Effect.fsMove incS inc])
          else
            (fs3, [Effect.fsAccess sample true, Effect.fsRm comp, Effect.fsMove compS comp,
              Effect.fsRm inc, Effect.logErr failMsg])
        else
          (fs2, [Effect.fsAccess sample true, Effect.fsRm comp, Effect.fsMove compS comp,
            Effect.logErr failMsg])
      else
        (fs1, [Effect.fsAccess sample true, Effect.fsRm comp, Effect.logErr failMsg])
    else
      (fs, [Effect.fsAccess sample true, Effect.logErr failMsg])
  else
    (fs, [Effect.fsAccess sample false, Effect.logErr failMsg])

/-! ### The two entry points -/

/-- The evolved entry point (`src/unnamed/part_001`), from after the
prompt stage to process end. -/
def mainPart001 (env : Env) (repoName : String) (a : Answers) (fs0 : Fs) : RunResult :=
  if env.cmdOk (gitCheckoutCmd repoName) then
    let effClone := [Effect.runCmd CmdTag.clone (gitCheckoutCmd repoName) true]
    let p1 := promotePackage repoName env.clonedFs
    let p2 := promoteComposer repoName p1.1
    let p3 := runSubstStage env 0 (part001SubstCalls repoName a) p2.1
    let effs := effClone ++ p1.2 ++ p2.2 ++ p3.2
    match setTimer 2000 with
    | Except.error e =>
      { fs := p3.1, effects := effs ++ [Effect.timerReject],
        outcome := Outcome.rejected e }
    | Except.ok _ =>
      let resetOk := env.cmdOk (newRepoCmd repoName)
      let effReset :=
        if resetOk then [Effect.runCmd CmdTag.reset (newRepoCmd repoName) true]
        else [Effect.runCmd CmdTag.reset (newRepoCmd repoName) false,
          Effect.warn "Was unable to finish removing boilerplate's development Git history and initialize new blank repo"]
      match setTimer 2000 with
      | Except.error e =>
        { fs := p3.1, effects := effs ++ effReset ++ [Effect.timerReject],
          outcome := Outcome.rejected e }
      | Except.ok _ =>
        if env.cmdOk (installDepsCmd repoName) then
          { fs := p3.1,
            effects := effs ++ effReset ++
              [Effect.runCmd CmdTag.install (installDepsCmd repoName) true],
            outcome := Outcome.finished }
        else
          { fs := p3.1,
            effects := effs ++ effReset ++
              [Effect.runCmd CmdTag.install (installDepsCmd repoName) false],
            outcome := Outcome.exit (-1) }
  else
    { fs := fs0, effects := [Effect.runCmd CmdTag.clone (gitCheckoutCmd repoName) false],
      outcome := Outcome.exit (-1) }

/-- The substitution stage of `bin/cli.js`. -/
def cliSubstStage (env : Env) (repoName : String) (a : Answers) (fs : Fs) :
    Fs × List Effect :=
  runSubstStage env 0 (cliSubstCalls repoName a) fs

/-- The `bin/cli.js` entry point, from after the prompt stage to process
end: clone, package promotion, dry substitution passes, install. -/
def mainCliJs (env : Env) (repoName : String) (a : Answers) (fs0 : Fs) : RunResult :=
  if env.cmdOk (gitCheckoutCmd repoName) then
    let effClone := [Effect.runCmd CmdTag.clone (gitCheckoutCmd repoName) true]
    let p1 := promotePackage repoName env.clonedFs
    let p2 := cliSubstStage env repoName a p1.1
    if env.cmdOk (installDepsCmd repoName) then
      { fs := p2.1,
        effects := effClone ++ p1.2 ++ p2.2 ++
          [Effect.runCmd CmdTag.install (installDepsCmd repoName) true],
        outcome := Outcome.finished }
    else
      { fs := p2.1,
        effects := effClone ++ p1.2 ++ p2.2 ++
          [Effect.runCmd CmdTag.install (installDepsCmd repoName) false],
        outcome := Outcome.exit (-1) }
  else
    { fs := fs0, effects := [Effect.runCmd CmdTag.clone (gitCheckoutCmd repoName) false],
      outcome := Outcome.exit (-1) }

/-! ### Prompt validation and defaults -/

/-- Result of a synchronous `prompts` validation function: `true` accepts
the answer, a string is an error message and makes the prompt re-ask. -/
inductive ValidationResult
  | ok
  | errMsg (msg : String)
deriving DecidableEq

/-- `validate` of the function-prefix prompt in the evolved variant:
`(value) => (/\s/.test(value) ? "Function prefix must not contain any spaces." : true)`. -/
def funcPrefixValidate (value : String) : ValidationResult :=
  if value.data.any isJsWs then
    ValidationResult.errMsg "Function prefix must not contain any spaces."
  else ValidationResult.ok

/-- `validate` of the class-prefix prompt in the evolved variant. -/
def classPrefixValidate (value : String) : ValidationResult :=
  if value.data.any isJsWs then
    ValidationResult.errMsg "Class prefix must not contain any spaces."
  else ValidationResult.ok

/-- Default offered by the function-prefix prompt:
`(_, { slug }) => snakeCase(slug) + "_"`. -/
def funcPrefixDefault (slug : String) : String := snakeCase slug ++ "_"

/-- Default offered by the class-prefix prompt:
`(_, { slug }) => titleSnakeCase(slug) + "_"`. -/
def classPrefixDefault (slug : String) : String := titleSnakeCase slug ++ "_"

/-! ## Effect observations -/

/-- Is the effect a substitution pass? -/
def isSubstEffect : Effect → Bool
  | Effect.substPass _ => true
  | _ => false

/-- Is the effect an execution of the command at source site `t`? -/
def isCmdEffect (t : CmdTag) : Effect → Bool
  | Effect.runCmd u _ _ => u == t
  | _ => false

/-- Is the effect an execution of any external command? -/
def isCmdAny : Effect → Bool
  | Effect.runCmd _ _ _ => true
  | _ => false

/-- Is the effect a substitution pass that actually writes (non-dry)? -/
def isWetSubst : Effect → Bool
  | Effect.substPass c => !c.dry
  | _ => false

theorem all_imp {p q : Effect → Bool} (h : ∀ e, p e = true → q e = true)
    {l : List Effect} (hl : l.all p = true) : l.all q = true := by
  rw [List.all_eq_true] at *
  exact fun e he => h e (hl e he)

theorem isCmdAny_false_elim {t : CmdTag} {e : Effect} (h : isCmdAny e = false) :
    isCmdEffect t e = false := by
  cases e <;> first | rfl | (exact absurd h (by simp [isCmdAny]))

theorem promotePackage_no_cmd (repoName : String) (fs : Fs) :
    (promotePackage repoName fs).2.all (fun e => !isCmdAny e) = true := by
  unfold promotePackage
  by_cases h1 : fsHas fs (pathPackageSample repoName) = true
  · rw [if_pos h1]
    by_cases h2 : fsHas fs (pathPackage repoName) = true
    · rw [if_pos h2]
      rfl
    · rw [if_neg h2]
      rfl
  · rw [if_neg h1]
    rfl

theorem promoteComposer_no_cmd (repoName : String) (fs : Fs) :
    (promoteComposer repoName fs).2.all (fun e => !isCmdAny e) = true := by
  unfold promoteComposer
  by_cases h1 : fsHas fs (pathPackageSample repoName) = true
  · rw [if_pos h1]
    by_cases h2 : fsHas fs (pathComposer repoName) = true
    · rw [if_pos h2]
      by_cases h3 : fsHas (fsErase fs (pathComposer repoName))
          (pathComposerSample repoName) = true
      · rw [if_pos h3]
        by_cases h4 : fsHas (fsRename (fsErase fs (pathComposer repoName))
            (pathComposerSample repoName) (pathComposer repoName))
            (pathComposerIncludes repoName) = true
        · rw [if_pos h4]
          by_cases h5 : fsHas (fsErase (fsRename (fsErase fs (pathComposer repoName))
              (pathComposerSample repoName) (pathComposer repoName))
              (pathComposerIncludes repoName)) (pathComposerIncludesSample repoName) = true
          · rw [if_pos h5]
            rfl
          · rw [if_neg h5]
            rfl
        · rw [if_neg h4]
          rfl
      · rw [if_neg h3]
        rfl
    · rw [if_neg h2]
      rfl
  · rw [if_neg h1]
    rfl

theorem runSubstStage_no_cmd (env : Env) :
    ∀ (calls : List SubstCall) (i : Nat) (fs : Fs),
      (runSubstStage env i calls fs).2.all (fun e => !isCmdAny e) = true := by
  intro calls
  induction calls with
  | nil => intro i fs; rfl
  | cons call rest ih =>
    intro i fs
    unfold runSubstStage
    by_cases h : env.substThrows i = true
    · rw [if_pos h]
      rfl
    · rw [if_neg h]
      show (Effect.substPass call :: _).all (fun e => !isCmdAny e) = true
      rw [List.all_cons]
      exact Bool.and_eq_true_iff.mpr ⟨rfl, ih (i + 1) _⟩

theorem runSubstStage_dry_fs (env : Env) :
    ∀ (calls : List SubstCall) (i : Nat) (fs : Fs), (∀ c ∈ calls, c.dry = true) →
      (runSubstStage env i calls fs).1 = fs := by
  intro calls
  induction calls with
  | nil => intro i fs _; rfl
  | cons call rest ih =>
    intro i fs h
    unfold runSubstStage
    by_cases ht : env.substThrows i = true
    · rw [if_pos ht]
    · rw [if_neg ht]
      show (runSubstStage env (i + 1) rest
        (if call.dry then fs else env.runReplace call fs)).1 = fs
      rw [h call (List.mem_cons_self call rest), if_pos rfl]
      exact ih (i + 1) fs (fun c hc => h c (List.mem_cons_of_mem call hc))

theorem runSubstStage_effects_dry (env : Env) :
    ∀ (calls : List SubstCall) (i : Nat) (fs : Fs), (∀ c ∈ calls, c.dry = true) →
      (runSubstStage env i calls fs).2.all (fun e => !isWetSubst e) = true := by
  intro calls
  induction calls with
  | nil => intro i fs _; rfl
  | cons call rest ih =>
    intro i fs h
    unfold runSubstStage
    have hdry : call.dry = true := h call (List.mem_cons_self call rest)
    by_cases ht : env.substThrows i = true
    · rw [if_pos ht]
      show (!isWetSubst (Effect.substPass call) && _) = true
      rw [Bool.and_eq_true_iff]
      refine ⟨?_, rfl⟩
      show (!(!call.dry)) = true
      rw [hdry]
      rfl
    · rw [if_neg ht]
      show (Effect.substPass call :: _).all (fun e => !isWetSubst e) = true
      rw [List.all_cons]
      rw [Bool.and_eq_true_iff]
      constructor
      · show (!(!call.dry)) = true
        rw [hdry]
        rfl
      · exact ih (i + 1) _ (fun c hc => h c (List.mem_cons_of_mem call hc))

theorem cliSubstCalls_dry (repoName : String) (a : Answers) :
    ∀ c ∈ cliSubstCalls repoName a, c.dry = true := by
  intro c hc
  simp only [cliSubstCalls, List.mem_cons, List.not_mem_nil, or_false] at hc
  rcases hc with rfl | rfl | rfl | rfl | rfl <;> rfl

/-! ## The claims -/

/-- C1: in both entry points, when the external clone command reports
failure the process exits immediately with a non-zero status, no
substitution pass runs, and no file content is touched. -/
theorem claim1_clone_failure_aborts (env : Env) (repoName : String) (a : Answers)
    (fs0 : Fs) (h : env.cmdOk (gitCheckoutCmd repoName) = false) :
    (processExitCode (mainPart001 env repoName a fs0).outcome ≠ 0 ∧
      (mainPart001 env repoName a fs0).effects.all (fun e => !isSubstEffect e) = true ∧
      (mainPart001 env repoName a fs0).fs = fs0) ∧
    (processExitCode (mainCliJs env repoName a fs0).outcome ≠ 0 ∧
      (mainCliJs env repoName a fs0).effects.all (fun e => !isSubstEffect e) = true ∧
      (mainCliJs env repoName a fs0).fs = fs0) := by
  unfold mainPart001 mainCliJs
  rw [h]
  have hneg : ¬((false : Bool) = true) := by decide
  rw [if_neg hneg, if_neg hneg]
  refine ⟨⟨?_, rfl, rfl⟩, ?_, rfl, rfl⟩
  · show processExitCode (Outcome.exit (-1)) ≠ 0
    decide
  · show processExitCode (Outcome.exit (-1)) ≠ 0
    decide

/-- Environment in which every external command fails. -/
def envCloneFail : Env :=
  { cmdOk := fun _ => false, clonedFs := [], substThrows := fun _ => false,
    runReplace := fun _ fs => fs }

/-- A concrete answer set. -/
def sampleAnswers : Answers :=
  { slug := "my-project", displayName := "My Project",
    description := "Modern responsive WordPress Theme.",
    authorName := "Denman Digital", authorSlug := "denman-digital",
    authorUri := "https://denman.digital/",
    githubUri := "https://github.com/Denman-Digital/my-project",
    uri := "https://github.com/Denman-Digital/my-project#readme",
    keywords := "responsive, modern", textDomain := "my-project",
    funcPrefixAns := "my_project_", classPrefixAns := "My_Project_" }

/-- Witness for C1 at a concrete failing environment. -/
theorem claim1_witness :
    envCloneFail.cmdOk (gitCheckoutCmd "my-project") = false ∧
    ((processExitCode (mainPart001 envCloneFail "my-project" sampleAnswers []).outcome ≠ 0 ∧
      (mainPart001 envCloneFail "my-project" sampleAnswers []).effects.all
        (fun e => !isSubstEffect e) = true ∧
      (mainPart001 envCloneFail "my-project" sampleAnswers []).fs = []) ∧
    (processExitCode (mainCliJs envCloneFail "my-project" sampleAnswers []).outcome ≠ 0 ∧
      (mainCliJs envCloneFail "my-project" sampleAnswers []).effects.all
        (fun e => !isSubstEffect e) = true ∧
      (mainCliJs envCloneFail "my-project" sampleAnswers []).fs = [])) :=
  ⟨rfl, claim1_clone_failure_aborts envCloneFail "my-project" sampleAnswers [] rfl⟩

/-- C6: `stripCase` output never contains an uppercase ASCII letter, an
underscore or a hyphen, has no leading or trailing whitespace and no two
adjacent whitespace characters; and it is computed by inserting a space
before each uppercase run, converting underscore/hyphen runs to spaces,
collapsing whitespace, trimming and lowercasing. -/
theorem claim6_stripCase_normal_form (s : String) :
    noneSat isUpperAZ (stripCase s).data = true ∧
    noneSat isDashU (stripCase s).data = true ∧
    headNot isJsWs (stripCase s).data = true ∧
    lastNot isJsWs (stripCase s).data = true ∧
    noTwoAdj isJsWs (stripCase s).data = true ∧
    stripCase s = String.mk (toLowerL (jsTrimL (replaceRuns isJsWs ' ' false
      (replaceRuns isDashU ' ' false (spaceUpper false s.data))))) := by
  have h := stripCase_normal s.data
  exact ⟨h.1, h.2.1, h.2.2.2.1, h.2.2.2.2.1, h.2.2.2.2.2, rfl⟩

/-- C7 counterexample: `"A.B"` is itself an output of `titleCase`, yet
applying `titleCase` to it yields `"A. B"`: `titleCase` is not a fixed
point on all of its own outputs. -/
theorem claim7_counterexample :
    titleCase (titleCase "a.b") ≠ titleCase "a.b" := by decide

/-- C7 (amended): the case transformers are total functions with empty
string mapped to empty string; `stripCase`, `snakeCase` and `kebabCase`
are fixed on their own outputs for every input; and `titleCase` is fixed
on its own outputs for every input over the ASCII alphanumeric-and-space
alphabet (punctuation adjacent to letters breaks the fixed point, as the
counterexample shows). -/
theorem claim7_amended_idempotence (s : String) :
    (stripCase "" = "" ∧ titleCase "" = "" ∧ snakeCase "" = "" ∧
      titleSnakeCase "" = "" ∧ kebabCase "" = "") ∧
    stripCase (stripCase s) = stripCase s ∧
    snakeCase (snakeCase s) = snakeCase s ∧
    kebabCase (kebabCase s) = kebabCase s ∧
    ((∀ c ∈ s.data, alnumOrSpace c = true) →
      titleCase (titleCase s) = titleCase s) :=
  ⟨by decide, stripCase_fixed s, snakeCase_fixed s, kebabCase_fixed s,
    titleCase_fixed_of_alnum⟩

/-- Witness for C7 at a concrete alphanumeric-and-space input. -/
theorem claim7_witness :
    (∀ c ∈ ("this is my sample" : String).data, alnumOrSpace c = true) ∧
    titleCase (titleCase "this is my sample") = titleCase "this is my sample" :=
  ⟨by decide, (claim7_amended_idempotence "this is my sample").2.2.2.2 (by decide)⟩

/-- C8: in both variants, the replacement configured for the quoted
keywords token in the manifest pass (the third `replaceInFiles` call) is
exactly the keywords answer split on commas, each segment trimmed and
wrapped in double quotes, joined by a comma and a space. -/
theorem claim8_quoted_keywords (repoName : String) (a : Answers) :
    quotedKeywords a.keywords = specKeywords a.keywords ∧
    (∃ c, (part001SubstCalls repoName a)[2]? = some c ∧
      c.fromPats = [Pat.lit "\"<theme_keywords>\""] ∧ c.dry = false ∧
      c.toRepls = [specKeywords a.keywords]) ∧
    (∃ c, (cliSubstCalls repoName a)[2]? = some c ∧
      c.fromPats = [Pat.lit "\"<theme_keywords>\""] ∧ c.dry = true ∧
      c.toRepls = [specKeywords a.keywords]) := by
  have hq : quotedKeywords a.keywords = specKeywords a.keywords :=
    congrArg String.mk (quotedKeywordsL_eq_spec a.keywords.data)
  refine ⟨hq, ⟨_, rfl, rfl, rfl, ?_⟩, ⟨_, rfl, rfl, rfl, ?_⟩⟩
  · show [quotedKeywords a.keywords] = [specKeywords a.keywords]
    rw [hq]
  · show [quotedKeywords a.keywords] = [specKeywords a.keywords]
    rw [hq]

/-- C9: for the slug `"my-project"`, the computed prompt defaults are
`"my_project_"` for the function prefix and `"My_Project_"` for the class
prefix. -/
theorem claim9_default_prefixes :
    funcPrefixDefault "my-project" = "my_project_" ∧
    classPrefixDefault "my-project" = "My_Project_" := by decide

/-- C10: the prefix validators reject exactly the answers containing a
whitespace character, rejection carrying the error message that makes the
prompt re-ask; every whitespace-free answer is accepted. -/
theorem claim10_whitespace_validation (v : String) :
    (funcPrefixValidate v ≠ ValidationResult.ok ↔ ∃ c ∈ v.data, isJsWs c = true) ∧
    (funcPrefixValidate v ≠ ValidationResult.ok →
      funcPrefixValidate v =
        ValidationResult.errMsg "Function prefix must not contain any spaces.") ∧
    (classPrefixValidate v ≠ ValidationResult.ok ↔ ∃ c ∈ v.data, isJsWs c = true) ∧
    (classPrefixValidate v ≠ ValidationResult.ok →
      classPrefixValidate v =
        ValidationResult.errMsg "Class prefix must not contain any spaces.") := by
  unfold funcPrefixValidate classPrefixValidate
  by_cases h : v.data.any isJsWs = true
  · rw [if_pos h, if_pos h]
    have hex : ∃ c ∈ v.data, isJsWs c = true := by
      obtain ⟨c, hc1, hc2⟩ := List.any_eq_true.mp h
      exact ⟨c, hc1, hc2⟩
    refine ⟨⟨fun _ => hex, fun _ => by simp⟩, fun _ => rfl,
      ⟨fun _ => hex, fun _ => by simp⟩, fun _ => rfl⟩
  · rw [if_neg h, if_neg h]
    have hnex : ¬∃ c ∈ v.data, isJsWs c = true := by
      intro ⟨c, hc1, hc2⟩
      exact h (List.any_eq_true.mpr ⟨c, hc1, hc2⟩)
    refine ⟨⟨fun hne => absurd rfl hne, fun hex => absurd hex hnex⟩,
      fun hne => absurd rfl hne,
      ⟨fun hne => absurd rfl hne, fun hex => absurd hex hnex⟩,
      fun hne => absurd rfl hne⟩

theorem no_cmd_imp {l : List Effect} (hl : l.all (fun e => !isCmdAny e) = true) :
    l.all (fun e => !isCmdEffect CmdTag.reset e && !isCmdEffect CmdTag.install e)
      = true := by
  apply all_imp _ hl
  intro e he
  rw [Bool.not_eq_true'] at he
  rw [isCmdAny_false_elim he, isCmdAny_false_elim he]
  rfl

/-- C4: every invocation of `setTimer` rejects with a `ReferenceError` on
the unbound identifier `toNumber`; consequently, in the evolved variant,
every run that survives the clone step rejects at the awaited delay
before the repo-reset step, and neither the reset command nor the install
command is ever executed. -/
theorem claim4_setTimer_always_rejects (env : Env) (repoName : String) (a : Answers)
    (fs0 : Fs) (d : Int) (h : env.cmdOk (gitCheckoutCmd repoName) = true) :
    setTimer d = Except.error (JsErr.referenceError "toNumber") ∧
    (mainPart001 env repoName a fs0).outcome =
      Outcome.rejected (JsErr.referenceError "toNumber") ∧
    (mainPart001 env repoName a fs0).effects.all
      (fun e => !isCmdEffect CmdTag.reset e && !isCmdEffect CmdTag.install e)
      = true := by
  have hmem : ¬("toNumber" ∈ part001ModuleScope) := by decide
  have hst : ∀ x : Int, setTimer x = Except.error (JsErr.referenceError "toNumber") := by
    intro x
    unfold setTimer
    rw [if_neg hmem]
  have heff : (mainPart001 env repoName a fs0).effects =
      [Effect.runCmd CmdTag.clone (gitCheckoutCmd repoName) true] ++
      (promotePackage repoName env.clonedFs).2 ++
      (promoteComposer repoName (promotePackage repoName env.clonedFs).1).2 ++
      (runSubstStage env 0 (part001SubstCalls repoName a)
        (promoteComposer repoName (promotePackage repoName env.clonedFs).1).1).2 ++
      [Effect.timerReject] := by
    unfold mainPart001
    rw [if_pos h, hst 2000]
  have hout : (mainPart001 env repoName a fs0).outcome =
      Outcome.rejected (JsErr.referenceError "toNumber") := by
    unfold mainPart001
    rw [if_pos h, hst 2000]
  refine ⟨hst d, hout, ?_⟩
  rw [heff, List.all_append, List.all_append, List.all_append, List.all_append]
  rw [Bool.and_eq_true_iff, Bool.and_eq_true_iff, Bool.and_eq_true_iff,
    Bool.and_eq_true_iff]
  exact ⟨⟨⟨⟨rfl, no_cmd_imp (promotePackage_no_cmd _ _)⟩,
    no_cmd_imp (promoteComposer_no_cmd _ _)⟩,
    no_cmd_imp (runSubstStage_no_cmd env _ 0 _)⟩, rfl⟩

/-- A working tree as produced by a successful clone: manifests, their
sample counterparts, and the stylesheet. -/
def stdClonedFs : Fs :=
  [(pathPackage "my-project", "PKG"),
   (pathPackageSample "my-project", "PKG_SAMPLE"),
   (pathComposer "my-project", "COMPOSER"),
   (pathComposerSample "my-project", "COMPOSER_SAMPLE"),
   (pathComposerIncludes "my-project", "COMPOSER_INC"),
   (pathComposerIncludesSample "my-project", "COMPOSER_INC_SAMPLE"),
   (pathStyleCSS "my-project", "STYLE")]

/-- Environment where every command succeeds and a non-dry substitution
pass leaves contents as they are (so promotions stay observable). -/
def envAllOk : Env :=
  { cmdOk := fun _ => true, clonedFs := stdClonedFs, substThrows := fun _ => false,
    runReplace := fun _ fs => fs }

/-- Witness for C4 at a concrete succeeding environment. -/
theorem claim4_witness :
    envAllOk.cmdOk (gitCheckoutCmd "my-project") = true ∧
    (setTimer 2000 = Except.error (JsErr.referenceError "toNumber") ∧
      (mainPart001 envAllOk "my-project" sampleAnswers []).outcome =
        Outcome.rejected (JsErr.referenceError "toNumber") ∧
      (mainPart001 envAllOk "my-project" sampleAnswers []).effects.all
        (fun e => !isCmdEffect CmdTag.reset e && !isCmdEffect CmdTag.install e)
        = true) :=
  ⟨rfl, claim4_setTimer_always_rejects envAllOk "my-project" sampleAnswers [] 2000 rfl⟩

/-- Environment where exactly the repo-reset command would fail. -/
def envResetFail : Env :=
  { cmdOk := fun c => !(c == newRepoCmd "my-project"), clonedFs := stdClonedFs,
    substThrows := fun _ => false, runReplace := fun _ fs => fs }

/-- C2 as stated fails on the evolved variant: in a run where the clone
succeeds and only the repo-reset would fail, the process does not exit
with status zero — it terminates on the unhandled `setTimer` rejection
before ever reaching the reset step; no reset or install command runs and
no warning is printed. -/
theorem claim2_reset_never_reached :
    processExitCode (mainPart001 envResetFail "my-project" sampleAnswers []).outcome ≠ 0 ∧
    (mainPart001 envResetFail "my-project" sampleAnswers []).outcome =
      Outcome.rejected (JsErr.referenceError "toNumber") ∧
    (mainPart001 envResetFail "my-project" sampleAnswers []).effects.all
      (fun e => !isCmdEffect CmdTag.reset e && !isCmdEffect CmdTag.install e)
      = true ∧
    (mainPart001 envResetFail "my-project" sampleAnswers []).effects.all
      (fun e => match e with | Effect.warn _ => false | _ => true) = true := by
  decide

/-- C3 as stated fails on the evolved variant: with every sample present
in the clone and all operations succeeding, the package manifest is
promoted, but the composer block re-checks the package sample — which the
first block has just renamed away — so the composer manifests stay
untouched, the recoverable error is logged, and all five substitution
passes still run. -/
theorem claim3_composer_promotion_skipped :
    fsHas stdClonedFs (pathComposerSample "my-project") = true ∧
    (mainPart001 envAllOk "my-project" sampleAnswers []).fs.lookup
      (pathPackage "my-project") = some "PKG_SAMPLE" ∧
    fsHas (mainPart001 envAllOk "my-project" sampleAnswers []).fs
      (pathPackageSample "my-project") = false ∧
    (mainPart001 envAllOk "my-project" sampleAnswers []).fs.lookup
      (pathComposer "my-project") = some "COMPOSER" ∧
    fsHas (mainPart001 envAllOk "my-project" sampleAnswers []).fs
      (pathComposerSample "my-project") = true ∧
    (mainPart001 envAllOk "my-project" sampleAnswers []).effects.contains
      (Effect.logErr "Unable to generate new composer.json's") = true ∧
    (mainPart001 envAllOk "my-project" sampleAnswers []).effects.all
      (fun e => !(e == Effect.fsMove (pathComposerSample "my-project")
        (pathComposer "my-project"))) = true ∧
    ((mainPart001 envAllOk "my-project" sampleAnswers []).effects.filter
      isSubstEffect).length = 5 := by
  decide

/-- C5: in `bin/cli.js` every substitution pass is dry, so the
substitution stage leaves every file content unchanged, and the file
system at the end of any run is exactly what the clone and the package
promotion produced (the install step is an external command). -/
theorem claim5_cli_substitution_dry (env : Env) (repoName : String) (a : Answers)
    (fs0 fs : Fs) :
    (cliSubstStage env repoName a fs).1 = fs ∧
    (cliSubstStage env repoName a fs).2.all (fun e => !isWetSubst e) = true ∧
    (mainCliJs env repoName a fs0).fs =
      (if env.cmdOk (gitCheckoutCmd repoName) = true
        then (promotePackage repoName env.clonedFs).1 else fs0) := by
  have hdry := cliSubstCalls_dry repoName a
  have h1 : ∀ f, (cliSubstStage env repoName a f).1 = f := fun f =>
    runSubstStage_dry_fs env (cliSubstCalls repoName a) 0 f hdry
  refine ⟨h1 fs, runSubstStage_effects_dry env _ 0 fs hdry, ?_⟩
  unfold mainCliJs
  by_cases h : env.cmdOk (gitCheckoutCmd repoName) = true
  · rw [if_pos h, if_pos h]
    by_cases h2 : env.cmdOk (installDepsCmd repoName) = true
    · rw [if_pos h2]
      exact h1 _
    · rw [if_neg h2]
      exact h1 _
  · rw [if_neg h, if_neg h]

end WpThemeCli
